import Mathlib

set_option maxRecDepth 1000000
set_option maxHeartbeats 10000000

/-!
Verification development for a compiler front-end toolkit: lexer
generation (regular expression to postfix, syntax tree with followpos,
direct DFA construction, NFA union, subset construction, longest-match
simulation) and SLR(1) parser construction (FIRST and FOLLOW sets,
LR(0) canonical collection, table builder, parse driver).

Modelling conventions used throughout:
* Python sets of ints (positions, state ids, the frozensets forming
  DFA states) are modelled as characteristic bit masks over the
  naturals; see the note before maskBitsAux.
* Python sets of strings are modelled as insertion-ordered
  duplicate-free lists (iteration order over Python sets is
  implementation-defined, so a deterministic order is chosen).
* Python dicts are modelled as insertion-ordered association lists:
  assignment replaces in place or appends at the end.
* Loops of the source that run until a flag settles are modelled with
  explicit fuel returning an Option; a result of some is produced
  exactly when the loop of the source exits on its own.
-/

namespace T2

/-- Sorted duplicate-free insertion of a natural (model of adding an
int to a Python set, canonically represented). -/
def nIns (x : Nat) : List Nat → List Nat
  | [] => [x]
  | y :: ys =>
    if x < y then x :: y :: ys
    else if x = y then y :: ys
    else y :: nIns x ys

/-- Union of two canonical sets of naturals: insert every element of
the second into the first (model of Python set union for ints). -/
def nUnion (a b : List Nat) : List Nat := b.foldl (fun acc x => nIns x acc) a

/-- Insertion-ordered add for a set of strings (Python set.add). -/
def sAdd (l : List String) (x : String) : List String :=
  if l.contains x then l else l ++ [x]

/-- Union of insertion-ordered string sets (Python set.update / |). -/
def sUnion (a b : List String) : List String := b.foldl sAdd a

/-- Set difference for string sets (Python set difference). -/
def sDiff (a b : List String) : List String :=
  a.filter (fun x => !b.contains x)

/-- Association-list lookup (Python dict access / dict.get). -/
def alookup {α β : Type} [BEq α] : List (α × β) → α → Option β
  | [], _ => none
  | (k, v) :: rest, a => if k == a then some v else alookup rest a

/-- Association-list assignment (Python dict write: replace in place or
append at the end). -/
def aset {α β : Type} [BEq α] : List (α × β) → α → β → List (α × β)
  | [], a, b => [(a, b)]
  | (k, v) :: rest, a, b =>
    if k == a then (a, b) :: rest else (k, v) :: aset rest a b

/-- Insert a natural into a sorted list (used to model Python sorted()). -/
def insSorted (x : Nat) : List Nat → List Nat
  | [] => [x]
  | y :: ys => if x ≤ y then x :: y :: ys else y :: insSorted x ys

/-- Insertion sort on naturals: model of Python sorted() on a set of ints. -/
def sortNat (l : List Nat) : List Nat := l.foldr insSorted []

/-- Lexicographic comparison of char lists by code point. -/
def charsLe : List Char → List Char → Bool
  | [], _ => true
  | _ :: _, [] => false
  | a :: xs, b :: ys =>
    if a.toNat < b.toNat then true
    else if b.toNat < a.toNat then false
    else charsLe xs ys

/-- Code-point comparison of strings (Python string ordering). -/
def strLe (a b : String) : Bool := charsLe a.data b.data

/-- Insert a string into a list sorted by strLe. -/
def insSortedStr (x : String) : List String → List String
  | [] => [x]
  | y :: ys => if strLe x y then x :: y :: ys else y :: insSortedStr x ys

/-- Insertion sort on strings: model of Python sorted() on strings. -/
def sortStr (l : List String) : List String := l.foldr insSortedStr []

/-- Maximum of a list of naturals, 0 when empty (the source only takes
max of nonempty state sets). -/
def listMax (l : List Nat) : Nat := l.foldl max 0

/-- One-character string from a char (Python indexing text yields a
one-character string). -/
def toStr (c : Char) : String := String.mk [c]

/-!
Sets of naturals that the source manipulates heavily (positions of the
syntax tree, NFA state ids, the frozensets that form DFA states) are
modelled by their characteristic bit mask: a natural whose bit p is set
exactly when p is in the set.  Set union is bitwise or, membership is
testBit, the singleton of p is 2 ^ p, and equality of Python
frozensets is equality of masks.  Iteration order over a Python set of
small ints coincides with ascending numeric order, which maskElems
produces.
-/

/-- Ascending list of the set bits of a mask starting at a base index,
structurally recursive on a fuel that bounds the bit count. -/
def maskBitsAux : Nat → Nat → Nat → List Nat
  | 0, _, _ => []
  | fuel + 1, n, base =>
    if n = 0 then []
    else if n % 2 = 1 then base :: maskBitsAux fuel (n / 2) (base + 1)
    else maskBitsAux fuel (n / 2) (base + 1)

/-- The elements of a set-of-naturals mask in ascending order (Python
iteration and sorted() over a set of small ints). -/
def maskElems (m : Nat) : List Nat := maskBitsAux (m + 1) m 0

/-- The largest element of a nonempty mask (Python max over a state
set; 0 for the empty mask). -/
def maskMax (m : Nat) : Nat := (maskElems m).getLastD 0

/-! ## Regex front-end: src/lexer/regular_expression.py -/

/-- Members of a character-class body, scanned left to right; x-y emits
the inclusive code-point range (RegularExpression.expand_character_classes,
inner expand_class). -/
def classMembers : List Char → List Char
  | c1 :: '-' :: c2 :: rest =>
    ((List.range (c2.toNat + 1 - c1.toNat)).map (fun k => Char.ofNat (c1.toNat + k)))
      ++ classMembers rest
  | c :: rest => c :: classMembers rest
  | [] => []

/-- Split a char list at the first closing bracket: the content before it
and the remainder after it. -/
def splitAtClose : List Char → Option (List Char × List Char)
  | [] => none
  | c :: rest =>
    if c = ']' then some ([], rest)
    else match splitAtClose rest with
      | some (a, b) => some (c :: a, b)
      | none => none

theorem splitAtClose_length : ∀ (l a b : List Char),
    splitAtClose l = some (a, b) → b.length < l.length := by
  intro l
  induction l with
  | nil => intro a b h; simp [splitAtClose] at h
  | cons c rest ih =>
    intro a b h
    by_cases hc : c = ']'
    · simp [splitAtClose, hc] at h
      simp [← h.2]
    · simp only [splitAtClose, hc, if_false] at h
      cases hsp : splitAtClose rest with
      | none => rw [hsp] at h; simp at h
      | some p =>
        rw [hsp] at h
        simp at h
        have := ih p.1 p.2 (by rw [hsp])
        simp [← h.2]
        omega

/-- Scanner of expand_character_classes, structurally recursive on a
fuel bound (one unit per consumed char, so the input length always
suffices). -/
def expandClassesAux : Nat → List Char → List Char
  | 0, l => l
  | _ + 1, [] => []
  | fuel + 1, c :: rest =>
    if c = '[' then
      match splitAtClose rest with
      | some (content, after) =>
        if content.isEmpty then
          -- the regex requires nonempty content; no match here, scan on
          c :: expandClassesAux fuel rest
        else
          ('(' :: (List.intersperse '|' (classMembers content)) ++ [')'])
            ++ expandClassesAux fuel after
      | none => c :: expandClassesAux fuel rest
    else
      c :: expandClassesAux fuel rest

/-- Replace each nonempty bracketed class with a parenthesized
alternation of its members, scanning left to right
(RegularExpression.expand_character_classes; the source uses re.sub
with pattern bracket-content-bracket). -/
def expandCharacterClasses (l : List Char) : List Char :=
  expandClassesAux l.length l

/-- True when the token starts with a backslash. -/
def startsBS : List Char → Bool
  | '\\' :: _ => true
  | _ => false

/-- read_token of add_concatenation_symbols: an escape is a length-2
unit, a bracketed class is one token, otherwise a single char.  The
first char of the input is passed separately. -/
def readToken (c : Char) (rest : List Char) : (List Char × List Char) :=
  if c = '\\' then
    match rest with
    | d :: rest2 => (['\\', d], rest2)
    | [] => (['\\'], [])
  else if c = '[' then
    match splitAtClose rest with
    | some (content, after) => ('[' :: content ++ [']'], after)
    | none => ('[' :: rest, [])
  else ([c], rest)

theorem readToken_length (c : Char) (rest : List Char) :
    (readToken c rest).2.length ≤ rest.length := by
  unfold readToken
  by_cases h1 : c = '\\'
  · simp only [h1, if_pos rfl]
    cases rest with
    | nil => simp
    | cons d ds => simp
  · simp only [h1, if_false]
    by_cases h2 : c = '['
    · simp only [h2, if_pos rfl]
      cases hsp : splitAtClose rest with
      | none => simp
      | some p =>
        obtain ⟨a, b⟩ := p
        have := splitAtClose_length rest a b (by rw [hsp])
        simp
        omega
    · simp [h2]

/-- Tokenization pass of add_concatenation_symbols: repeated
read_token (fuel-bounded; the input length always suffices since every
read consumes at least one char). -/
def readAllTokensAux : Nat → List Char → List (List Char)
  | 0, _ => []
  | _ + 1, [] => []
  | fuel + 1, c :: rest =>
    (readToken c rest).1 :: readAllTokensAux fuel (readToken c rest).2

/-- All tokens of a pattern, in order. -/
def readAllTokens (l : List Char) : List (List Char) :=
  readAllTokensAux l.length l

/-- is_character_class of add_concatenation_symbols. -/
def isCharacterClassTok (t : List Char) : Bool :=
  t.length ≥ 3 && t.headD ' ' == '[' && t.getLastD ' ' == ']'

/-- is_literal of add_concatenation_symbols. -/
def isLiteralTok (t : List Char) : Bool :=
  (t.length == 1 && (t.headD ' ').isAlphanum) || startsBS t

/-- is_operand of add_concatenation_symbols. -/
def isOperandTok (t : List Char) : Bool :=
  isCharacterClassTok t || isLiteralTok t || t == [')']
    || (startsBS t && t.length == 2)

/-- The unary-operator test of add_concatenation_symbols (named
is_prefix in the source). -/
def isUnaryTok (t : List Char) : Bool :=
  t == ['*'] || t == ['+'] || t == ['?']
    || (startsBS t && (t.getD 1 ' ') ∈ ['*', '+', '?'])

/-- Lookahead pass of add_concatenation_symbols: insert an explicit
concatenation dot between adjacent tokens exactly under the condition
of the source (operand, closing group or unary on the left; operand or
open group on the right; left is not an alternation bar; right is none
of bar, star, plus, question mark, closing paren). -/
def insertConcatDots : List (List Char) → List (List Char)
  | [] => []
  | [t] => [t]
  | t :: u :: rest =>
    if (isOperandTok t || t == [')'] || isUnaryTok t)
        && (isOperandTok u || u == ['('])
        && t != ['|']
        && !([['|'], ['*'], ['+'], ['?'], [')']].contains u)
    then t :: ['.'] :: insertConcatDots (u :: rest)
    else t :: insertConcatDots (u :: rest)

/-- add_concatenation_symbols: tokenizes, inserts dots, joins back. -/
def addConcatenationSymbols (pattern : List Char) : List Char :=
  (insertConcatDots (readAllTokens pattern)).foldl (fun acc t => acc ++ t) []

/-- RegularExpression.tokenize: escapes are length-2 units, the seven
metacharacters are single tokens, whitespace is discarded, any other
char is a single literal token. -/
def tokenizeRE : List Char → List String
  | [] => []
  | '\\' :: c :: rest => String.mk ['\\', c] :: tokenizeRE rest
  | ['\\'] => ["\\"]
  | c :: rest =>
    if c ∈ ['(', ')', '|', '*', '+', '?', '.'] then toStr c :: tokenizeRE rest
    else if !c.isWhitespace then toStr c :: tokenizeRE rest
    else tokenizeRE rest

/-- RegularExpression.precedence. -/
def precedence (op : String) : Nat :=
  if op ∈ ["*", "+", "?"] then 3
  else if op == "." then 2
  else if op == "|" then 1
  else 0

/-- RegularExpression.is_operator. -/
def isOperatorStr (c : String) : Bool :=
  c ∈ ["|", ".", "*", "+", "?"] && !(startsBS c.data && c.length == 2)

/-- Pop loop of the shunting yard for an operator token: returns the
popped output and the remaining stack. -/
def popWhileGe (token : String) : List String → (List String × List String)
  | [] => ([], [])
  | top :: rest =>
    if top != "(" && ((precedence token < precedence top)
        || (precedence token == precedence top && token != "*"))
    then
      let (o, s) := popWhileGe token rest
      (top :: o, s)
    else ([], top :: rest)

/-- Pop loop for a closing parenthesis: pops to the matching open paren
and drops it; none models the IndexError the source would raise on an
unmatched closing paren. -/
def popUntilLpar : List String → Option (List String × List String)
  | [] => none
  | top :: rest =>
    if top != "(" then
      match popUntilLpar rest with
      | some (o, s) => some (top :: o, s)
      | none => none
    else some ([], rest)

/-- Main loop of RegularExpression.to_postfix (shunting yard); the
stack has its top at the head. -/
def shuntLoop : List String → List String → List String → Option (List String)
  | [], stack, output => some (output ++ stack)
  | t :: rest, stack, output =>
    if t == "(" then shuntLoop rest (t :: stack) output
    else if t == ")" then
      match popUntilLpar stack with
      | some (o, s) => shuntLoop rest s (output ++ o)
      | none => none
    else if isOperatorStr t then
      let (o, s) := popWhileGe t stack
      shuntLoop rest (t :: s) (output ++ o)
    else shuntLoop rest stack (output ++ [t])

/-- RegularExpression.to_postfix: expand classes, insert concatenation,
tokenize, shunting yard, then append the end-marker and a final
concatenation. -/
def toPostfix (pattern : List Char) : Option (List String) :=
  let p2 := addConcatenationSymbols (expandCharacterClasses pattern)
  (shuntLoop (tokenizeRE p2) [] []).map (fun out => out ++ ["#", "."])

/-! ## Syntax tree and followpos: src/lexer/syntax_tree.py -/

/-- Node of the regex syntax tree (Leaf / UnaryNode / BinaryNode). -/
inductive STree where
  | leaf (sym : String) (pos : Nat)
  | unary (op : String) (child : STree)
  | binary (op : String) (l r : STree)
deriving Repr, DecidableEq

/-- Python str.isalnum on a token string. -/
def pyIsAlnumStr (t : String) : Bool :=
  t.length > 0 && t.data.all Char.isAlphanum

/-- Stack loop of SyntaxTree.build_syntax_tree; also records
leaf_positions.  Errors mirror the ValueError messages of the source. -/
def buildLoop : List String → List STree → Nat → List (Nat × String) →
    Except String (STree × List (Nat × String))
  | [], stack, _, lp =>
    match stack with
    | [t] => .ok (t, lp)
    | _ => .error "Invalid postfix expression"
  | tok :: rest, stack, ctr, lp =>
    if tok == "#" || (startsBS tok.data && tok.length == 2) || pyIsAlnumStr tok then
      buildLoop rest (.leaf tok ctr :: stack) (ctr + 1) (lp ++ [(ctr, tok)])
    else if tok ∈ ["*", "+", "?"] then
      match stack with
      | c :: s => buildLoop rest (.unary tok c :: s) ctr lp
      | [] => .error "Invalid postfix expression: missing operand for unary operator"
    else if tok ∈ ["|", "."] then
      match stack with
      | r :: l :: s => buildLoop rest (.binary tok l r :: s) ctr lp
      | _ => .error "Invalid postfix expression: missing operands for binary operator"
    else .error ("Unknown token: " ++ tok)

/-- SyntaxTree.build_syntax_tree, returning the root and the
position-to-symbol map. -/
def buildSyntaxTree (postfixTokens : List String) :
    Except String (STree × List (Nat × String)) :=
  buildLoop postfixTokens [] 1 []

/-- Computed node attributes nullable, firstpos, lastpos (the two sets
as masks). -/
structure Attr where
  nullable : Bool
  first : Nat
  last : Nat
deriving Repr, DecidableEq

/-- followpos: a map from position to its set of positions (a mask). -/
abbrev FMap := List (Nat × Nat)

/-- followpos dict write at a leaf (followpos[pos] = set()). -/
def fmapSet (m : FMap) (p : Nat) (v : Nat) : FMap := aset m p v

/-- followpos[p].update(v): union into the existing entry.  A missing
key would raise KeyError in the source; here it is a no-op (traversal
order guarantees every updated position was initialized at its leaf). -/
def fmapUpd (m : FMap) (p : Nat) (v : Nat) : FMap :=
  m.map (fun kv => if kv.1 == p then (kv.1, kv.2 ||| v) else kv)

/-- The loop: for p in ps: followpos[p].update(v). -/
def updAll (m : FMap) (ps : Nat) (v : Nat) : FMap :=
  (maskElems ps).foldl (fun acc p => fmapUpd acc p v) m

/-- Recursive traversal of SyntaxTree.compute_nullable_first_last_follow:
computes the attributes of each node and threads the followpos map in
traversal order.  An unknown operator leaves the Node defaults
(nullable false, empty sets), as in the source. -/
def trav : STree → FMap → (Attr × FMap)
  | .leaf _ p, m => (⟨false, 2 ^ p, 2 ^ p⟩, fmapSet m p 0)
  | .unary op c, m =>
    let (ac, m1) := trav c m
    if op == "*" then
      (⟨true, ac.first, ac.last⟩, updAll m1 ac.last ac.first)
    else if op == "+" then
      (⟨ac.nullable, ac.first, ac.last⟩, updAll m1 ac.last ac.first)
    else if op == "?" then
      (⟨true, ac.first, ac.last⟩, m1)
    else (⟨false, 0, 0⟩, m1)
  | .binary op l r, m =>
    let (al, m1) := trav l m
    let (ar, m2) := trav r m1
    if op == "." then
      (⟨al.nullable && ar.nullable,
        if !al.nullable then al.first else al.first ||| ar.first,
        if !ar.nullable then ar.last else al.last ||| ar.last⟩,
       updAll m2 al.last ar.first)
    else if op == "|" then
      (⟨al.nullable || ar.nullable, al.first ||| ar.first,
        al.last ||| ar.last⟩, m2)
    else (⟨false, 0, 0⟩, m2)

/-- SyntaxTree.compute_nullable_first_last_follow: the returned
followpos map. -/
def computeNullableFirstLastFollow (root : STree) : FMap :=
  (trav root []).2

/-- The attributes the traversal leaves on a node (independent of the
followpos map, proved below). -/
def attrOf (t : STree) : Attr := (trav t []).1

/-! ## Direct DFA construction: build_afd of src/lexer/syntax_tree.py -/

/-- Deterministic finite automaton in the shape of the AFD class:
states are the frozen sets (as masks) the subset and followpos
constructions produce. -/
structure AFD where
  start : Nat
  accepts : List Nat
  transitions : List (Nat × List (String × Nat))
  tokenMap : List (Nat × String)
deriving Repr, DecidableEq

/-- symbol_to_positions accumulation of build_afd: for each position of
the current state (the end-marker excluded), add the members of its
followpos set to the bucket of its leaf symbol (a bucket is only
created when at least one position is added). -/
def symbolBuckets (lp : List (Nat × String)) (fp : FMap) (current : Nat) :
    List (String × Nat) :=
  (maskElems current).foldl (fun buckets pos =>
    match alookup lp pos with
    | none => buckets
    | some sym =>
      if sym == "#" then buckets
      else
        let fset := (alookup fp pos).getD 0
        match alookup buckets sym with
        | some s => aset buckets sym (s ||| fset)
        | none => if fset == 0 then buckets else buckets ++ [(sym, fset)]) []

/-- Worklist loop of build_afd: dequeue a state, register the new
states of its buckets, record its transition row. -/
def buildAfdLoop (lp : List (Nat × String)) (fp : FMap) :
    Nat → List Nat → List Nat → List (Nat × List (String × Nat)) →
    Option (List Nat × List (Nat × List (String × Nat)))
  | 0, _, _, _ => none
  | _ + 1, [], dstates, tr => some (dstates, tr)
  | fuel + 1, current :: queue, dstates, tr =>
    let step := (symbolBuckets lp fp current).foldl
      (fun (acc : List Nat × List Nat × List (String × Nat)) sb =>
        if acc.1.contains sb.2 then (acc.1, acc.2.1, acc.2.2 ++ [sb])
        else (acc.1 ++ [sb.2], acc.2.1 ++ [sb.2], acc.2.2 ++ [sb]))
      (dstates, queue, [])
    buildAfdLoop lp fp fuel step.2.1 step.1 (tr ++ [(current, step.2.2)])

/-- build_afd: initial state is firstpos(root); a state is accepting iff
it contains the position of the end-marker.  none models the ValueError
when no end-marker leaf exists, or exhausted fuel. -/
def buildAfd (root : STree) (fp : FMap) (lp : List (Nat × String))
    (fuel : Nat) : Option AFD :=
  match (lp.filter (fun kv => kv.2 == "#")).head? with
  | none => none
  | some h =>
    let startState := (attrOf root).first
    match buildAfdLoop lp fp fuel [startState] [startState] [] with
    | none => none
    | some (dstates, tr) =>
      some ⟨startState, dstates.filter (fun st => st.testBit h.1), tr, []⟩

/-! ## DFA serialization: AFD.export_to_txt and AFN.load_afd_from_file -/

/-- The dense id assignment of AFD.export_to_txt: sources in transition
order first, then the targets of each row (keys are state masks). -/
def exportIdMap (tr : List (Nat × List (String × Nat))) :
    List (Nat × Nat) :=
  tr.foldl (fun idm row =>
    let idm1 := if (alookup idm row.1).isSome then idm
      else idm ++ [(row.1, idm.length)]
    row.2.foldl (fun idm2 sd =>
      if (alookup idm2 sd.2).isSome then idm2
      else idm2 ++ [(sd.2, idm2.length)]) idm1) []

/-- The content AFD.export_to_txt writes: number of states, start id,
sorted accepting ids, sorted alphabet, and one (src, symbol, dst)
triple per transition. -/
structure ExportedAfd where
  numStates : Nat
  startId : Nat
  acceptIds : List Nat
  alphabet : List String
  rows : List (Nat × String × Nat)
deriving Repr, DecidableEq

/-- AFD.export_to_txt (none models the KeyError when the start state
never occurs in the transition table). -/
def exportAfd (a : AFD) : Option ExportedAfd :=
  let idm := exportIdMap a.transitions
  match alookup idm a.start with
  | none => none
  | some startId =>
    let acceptIds := sortNat (a.accepts.filterMap (alookup idm))
    let rows := a.transitions.foldl (fun acc row =>
      row.2.foldl (fun acc2 sd =>
        match alookup idm row.1, alookup idm sd.2 with
        | some si, some di => acc2 ++ [(si, sd.1, di)]
        | _, _ => acc2) acc) []
    let alphabet := sortStr (rows.foldl (fun al r => sAdd al r.2.1) [])
    some ⟨idm.length, startId, acceptIds, alphabet, rows⟩

/-- Non-deterministic finite automaton in the shape of the AFN class
(the state set and the final set are masks; transitions map a state id
and symbol to a destination set mask). -/
structure AFN where
  states : Nat
  start : Nat
  finals : Nat
  transitions : List (Nat × List (String × Nat))
  alphabet : List String
  tokenTypes : List (Nat × String)
deriving Repr, DecidableEq

/-- AFN.load_afd_from_file on the exported content: rebuild transitions,
derive the state set from sources and destinations, tag every final
state with the supplied token type. -/
def loadAfd (e : ExportedAfd) (tokenType : String) : AFN :=
  let tr := e.rows.foldl (fun acc r =>
    match alookup acc r.1 with
    | none => acc ++ [(r.1, [(r.2.1, 2 ^ r.2.2)])]
    | some row =>
      match alookup row r.2.1 with
      | none => aset acc r.1 (row ++ [(r.2.1, 2 ^ r.2.2)])
      | some dests => aset acc r.1 (aset row r.2.1 (dests ||| 2 ^ r.2.2))) []
  let states := tr.foldl (fun s row =>
    row.2.foldl (fun s2 sd => s2 ||| sd.2) (s ||| 2 ^ row.1)) 0
  let finals := e.acceptIds.foldl (fun m i => m ||| 2 ^ i) 0
  ⟨states, e.startId, finals, tr, e.alphabet,
    e.acceptIds.map (fun s => (s, tokenType))⟩

/-! ## NFA operations: AFN.offset_states, AutomatonOperations.union,
AFN.to_afd -/

/-- AFN.offset_states: add a fixed offset to every state id. -/
def offsetStates (a : AFN) (off : Nat) : AFN :=
  ⟨a.states <<< off, a.start + off, a.finals <<< off,
    a.transitions.map (fun row =>
      (row.1 + off, row.2.map (fun sd => (sd.1, sd.2 <<< off)))),
    a.alphabet,
    a.tokenTypes.map (fun kv => (kv.1 + off, kv.2))⟩

/-- Merge loop of AutomatonOperations.union over the transitions of the
second automaton. -/
def mergeTransRows (t1 t2 : List (Nat × List (String × Nat))) :
    List (Nat × List (String × Nat)) :=
  t2.foldl (fun acc row =>
    let acc1 := if (alookup acc row.1).isSome then acc else acc ++ [(row.1, [])]
    row.2.foldl (fun acc2 sd =>
      let cur := (alookup acc2 row.1).getD []
      match alookup cur sd.1 with
      | none => aset acc2 row.1 (cur ++ [(sd.1, sd.2)])
      | some dests => aset acc2 row.1 (aset cur sd.1 (dests ||| sd.2))) acc1) t1

/-- AutomatonOperations.union: offset the second automaton past the
first, create a fresh start with epsilon edges to both starts, merge
everything, merge token types with the second overriding. -/
def afnUnion (a1 a2 : AFN) : AFN :=
  let off := maskMax a1.states + 1
  let b := offsetStates a2 off
  let newStart := maskMax b.states + 1
  let newStates := a1.states ||| b.states ||| 2 ^ newStart
  let newFinals := a1.finals ||| b.finals
  let newAlphabet := sUnion a1.alphabet b.alphabet
  let merged := mergeTransRows a1.transitions b.transitions
  let withStart :=
    let acc1 := if (alookup merged newStart).isSome then merged
      else merged ++ [(newStart, [])]
    aset acc1 newStart (aset ((alookup acc1 newStart).getD []) "ε"
      (2 ^ a1.start ||| 2 ^ b.start))
  let newTokens := b.tokenTypes.foldl (fun acc kv => aset acc kv.1 kv.2)
    a1.tokenTypes
  ⟨newStates, newStart, newFinals, withStart, sUnion newAlphabet ["ε"], newTokens⟩

/-- One expansion pass of the epsilon-closure of AFN.to_afd. -/
def epsStep (tr : List (Nat × List (String × Nat))) (s : Nat) : Nat :=
  (maskElems s).foldl (fun acc x =>
    acc ||| (((alookup tr x).bind (fun row => alookup row "ε")).getD 0)) s

/-- Epsilon-closure as the stable point of epsStep (the source computes
the same closure with an explicit stack). -/
def epsClosure (tr : List (Nat × List (String × Nat))) :
    Nat → Nat → Option Nat
  | 0, _ => none
  | fuel + 1, s =>
    let s2 := epsStep tr s
    if s2 == s then some s else epsClosure tr fuel s2

/-- move of AFN.to_afd: all states reachable from the set on a symbol. -/
def moveSet (tr : List (Nat × List (String × Nat))) (states : Nat)
    (sym : String) : Nat :=
  (maskElems states).foldl (fun acc s =>
    acc ||| (((alookup tr s).bind (fun row => alookup row sym)).getD 0)) 0

/-- Subset-construction worklist loop of AFN.to_afd. -/
def toAfdLoop (n : AFN) (fuel : Nat) :
    List Nat → List Nat → List (Nat × List (String × Nat)) →
    Option (List Nat × List (Nat × List (String × Nat))) :=
  match fuel with
  | 0 => fun _ _ _ => none
  | fuel + 1 => fun queue visited tr =>
    match queue with
    | [] => some (visited, tr)
    | current :: rest =>
      let folded := n.alphabet.foldl
        (fun (acc : Option (List Nat × List Nat × List (String × Nat))) sym =>
          match acc with
          | none => none
          | some (q, vis, row) =>
            if sym == "ε" then some (q, vis, row)
            else
              match epsClosure n.transitions ((maskElems n.states).length + 1)
                  (moveSet n.transitions current sym) with
              | none => none
              | some target =>
                if target == 0 then some (q, vis, row)
                else if vis.contains target then
                  some (q, vis, row ++ [(sym, target)])
                else
                  some (q ++ [target], vis ++ [target], row ++ [(sym, target)]))
        (some (rest, visited, []))
      match folded with
      | none => none
      | some (q, vis, row) => toAfdLoop n fuel q vis (tr ++ [(current, row)])

/-- AFN.to_afd: subset construction with epsilon closure; accepting DFA
states intersect the NFA finals; token map keeps every NFA final state
with its token type. -/
def toAfd (n : AFN) (fuel : Nat) : Option (AFD × List (Nat × String)) :=
  match epsClosure n.transitions ((maskElems n.states).length + 1)
      (2 ^ n.start) with
  | none => none
  | some startC =>
    match toAfdLoop n fuel [startC] [startC] [] with
    | none => none
    | some (visited, tr) =>
      let tokenMap := (maskElems n.finals).foldl (fun acc s =>
        match alookup n.tokenTypes s with
        | some t => aset acc s t
        | none => acc) []
      let accepts := visited.filter (fun st => st &&& n.finals != 0)
      some (⟨startC, accepts, tr, tokenMap⟩, tokenMap)

/-! ## Lexer runtime: src/lexer/lexer_simulation.py -/

/-- Transition lookup of the simulators: dfa.transitions.get(state, {})
then the symbol. -/
def lookupTrans (tr : List (Nat × List (String × Nat)))
    (st : Nat) (sym : String) : Option Nat :=
  match alookup tr st with
  | none => none
  | some row => alookup row sym

/-- First resolved token in an ordered list of substates (the break
loop over sorted(substates) with token_map). -/
def firstTokenIn (tm : List (Nat × String)) : List Nat → Option String
  | [] => none
  | s :: rest =>
    match alookup tm s with
    | some t => some t
    | none => firstTokenIn tm rest

/-- The token resolution of the simulators: scan the substates of the
accepting DFA state in sorted order, return the first one present in
the token map. -/
def resolveToken (tm : List (Nat × String)) (substates : Nat) :
    Option String :=
  firstTokenIn tm (maskElems substates)

/-- Inner scan of simulate_dfa_on_text: walk transitions from the
current position, remembering the last accepting state together with
the end index (relative to the scan start) of its lexeme. -/
def scanText (dfa : AFD) : List Char → Nat → Nat →
    Option (Nat × Nat) → Option (Nat × Nat)
  | [], _, _, last => last
  | c :: rest, st, j, last =>
    match lookupTrans dfa.transitions st (toStr c) with
    | none => last
    | some st2 =>
      let last2 := if dfa.accepts.contains st2 then some (st2, j + 1) else last
      scanText dfa rest st2 (j + 1) last2

theorem scanText_pos (dfa : AFD) : ∀ (cs : List Char) (st : Nat)
    (j : Nat) (last : Option (Nat × Nat)) (res : Nat × Nat),
    scanText dfa cs st j last = some res → last = some res ∨ j + 1 ≤ res.2 := by
  intro cs
  induction cs with
  | nil =>
    intro st j last res h
    left; exact h
  | cons c rest ih =>
    intro st j last res h
    simp only [scanText] at h
    cases hlk : lookupTrans dfa.transitions st (toStr c) with
    | none =>
      rw [hlk] at h
      left; exact h
    | some st2 =>
      rw [hlk] at h
      by_cases hacc : dfa.accepts.contains st2
      · simp only [hacc, if_pos rfl] at h
        rcases ih st2 (j + 1) (some (st2, j + 1)) res h with h1 | h1
        · have h2 := congrArg Prod.snd (Option.some.inj h1)
          simp at h2
          right; omega
        · right; omega
      · simp only [hacc] at h
        simp at h
        rcases ih st2 (j + 1) last res h with h1 | h1
        · left; exact h1
        · right; omega

/-- When the scan starts with no recorded acceptance, any returned end
index lies strictly beyond the start index. -/
theorem scanText_none_pos (dfa : AFD) (cs : List Char) (st : Nat)
    (j : Nat) (res : Nat × Nat)
    (h : scanText dfa cs st j none = some res) : j + 1 ≤ res.2 := by
  rcases scanText_pos dfa cs st j none res h with h1 | h1
  · exact absurd h1 (by simp)
  · exact h1

/-- Outer loop of simulate_dfa_on_text, structurally recursive on a
fuel bound (each emitted token consumes at least one char, so the text
length always suffices). -/
def simTextAux (dfa : AFD) (tm : List (Nat × String)) :
    Nat → List Char → List (String × String)
  | 0, _ => []
  | _ + 1, [] => []
  | fuel + 1, c :: rest =>
    match scanText dfa (c :: rest) dfa.start 0 none with
    | some la =>
      (String.mk ((c :: rest).take la.2), (resolveToken tm la.1).getD "erro!")
        :: simTextAux dfa tm fuel ((c :: rest).drop la.2)
    | none => (toStr c, "erro!") :: simTextAux dfa tm fuel rest

/-- simulate_dfa_on_text: longest-match tokenization over a whole text.
For each position, scan for the last accepting prefix; emit it with the
resolved token (erro! when no substate resolves), or emit the single
char as erro! and advance one. -/
def simulateDfaOnText (dfa : AFD) (tm : List (Nat × String))
    (text : List Char) : List (String × String) :=
  simTextAux dfa tm text.length text

/-- The fuel of simTextAux is irrelevant once it covers the text
length. -/
theorem simTextAux_fuel (dfa : AFD) (tm : List (Nat × String)) :
    ∀ (fuel1 fuel2 : Nat) (l : List Char), l.length ≤ fuel1 →
    l.length ≤ fuel2 → simTextAux dfa tm fuel1 l = simTextAux dfa tm fuel2 l := by
  intro fuel1
  induction fuel1 using Nat.strong_induction_on with
  | _ fuel1 ih =>
    intro fuel2 l h1 h2
    cases l with
    | nil => cases fuel1 <;> cases fuel2 <;> rfl
    | cons c rest =>
      cases fuel1 with
      | zero => simp at h1
      | succ f1 =>
        cases fuel2 with
        | zero => simp at h2
        | succ f2 =>
          simp only [simTextAux]
          cases hs : scanText dfa (c :: rest) dfa.start 0 none with
          | none =>
            have := ih f1 (by omega) f2 rest (by simp at h1; omega)
              (by simp at h2; omega)
            simp only [this]
          | some la =>
            have hpos := scanText_none_pos dfa (c :: rest) dfa.start 0 la hs
            have hlen : ((c :: rest).drop la.2).length ≤ f1 := by
              simp at h1 ⊢; omega
            have hlen2 : ((c :: rest).drop la.2).length ≤ f2 := by
              simp at h2 ⊢; omega
            have := ih f1 (by omega) f2 ((c :: rest).drop la.2) hlen hlen2
            simp only [this]

/-- The escaped_symbol_map of simulate_dfa_on_line: the nine
metacharacters are remapped to their backslash-escaped two-char form
before the transition lookup; every other char is looked up unchanged. -/
def escapedSymbol (c : Char) : String :=
  if c = '+' then "\\+"
  else if c = '-' then "\\-"
  else if c = '*' then "\\*"
  else if c = '/' then "\\/"
  else if c = '(' then "\\("
  else if c = ')' then "\\)"
  else if c = '[' then "\\["
  else if c = ']' then "\\]"
  else if c = '\\' then "\\\\"
  else toStr c

/-- Transition walk of simulate_dfa_on_line: consume the whole line,
none when some step has no transition (the early erro! return). -/
def lineWalk (dfa : AFD) : List Char → Nat → Option Nat
  | [], st => some st
  | c :: rest, st =>
    match lookupTrans dfa.transitions st (escapedSymbol c) with
    | none => none
    | some st2 => lineWalk dfa rest st2

/-- simulate_dfa_on_line: accept only when the whole line is consumed
and the final state is accepting; resolve the token over the substates,
falling back to erro!. -/
def simulateDfaOnLine (dfa : AFD) (tm : List (Nat × String))
    (line : List Char) : String × String :=
  match lineWalk dfa line dfa.start with
  | none => (String.mk line, "erro!")
  | some st =>
    if dfa.accepts.contains st then
      match resolveToken tm st with
      | some t => (String.mk line, t)
      | none => (String.mk line, "erro!")
    else (String.mk line, "erro!")

/-- Python str.strip on a line. -/
def pyStrip (l : List Char) : List Char :=
  ((l.dropWhile Char.isWhitespace).reverse.dropWhile Char.isWhitespace).reverse

/-- run_lexer on the lines of the input file: strip each line, keep the
non-blank ones, simulate the DFA on each (file writing is I/O and out
of the model). -/
def runLexer (dfa : AFD) (tm : List (Nat × String))
    (inputLines : List (List Char)) : List (String × String) :=
  (((inputLines.map pyStrip).filter (fun l => !l.isEmpty)).map
    (fun line => simulateDfaOnLine dfa tm line))

/-! ## The lexer pipeline of main.py: per-regex DFA, export, reload,
union fold, subset construction -/

/-- Steps 1 to 4 of main.py for a single named regular expression:
postfix, syntax tree, followpos, direct DFA, export.  Errors of any
stage propagate. -/
def regexToExported (pattern : List Char) : Option ExportedAfd :=
  match toPostfix pattern with
  | none => none
  | some pf =>
    match buildSyntaxTree pf with
    | .error _ => none
    | .ok (root, lp) =>
      let fp := computeNullableFirstLastFollow root
      match buildAfd root fp lp 1000 with
      | none => none
      | some a => exportAfd a

/-- The per-regex loop of main.py: export each pattern, reload each as
a token-tagged NFA; any failure aborts. -/
def buildAfnList : List (String × List Char) → Option (List AFN)
  | [] => some []
  | d :: rest =>
    match regexToExported d.2 with
    | none => none
    | some e =>
      match buildAfnList rest with
      | none => none
      | some l => some (loadAfd e d.1 :: l)

/-- Steps 1 to 5 of main.py: build each pattern's exported DFA, reload
each as a token-tagged NFA, left-fold the union. -/
def buildUnionAfn (defs : List (String × List Char)) : Option AFN :=
  match buildAfnList defs with
  | none => none
  | some [] => none
  | some (a :: rest) => some (rest.foldl afnUnion a)

/-- The full lexer construction of main.py: union NFA, then subset
construction giving the combined DFA and token map. -/
def buildLexerDfa (defs : List (String × List Char)) :
    Option (AFD × List (Nat × String)) :=
  match buildUnionAfn defs with
  | none => none
  | some n => toAfd n 1000

/-! ## Grammar model: src/parser/grammar.py -/

/-- Grammar as loaded by Grammar.load_grammar: terminals are the rhs
symbols that are not a lhs; the first lhs is the start symbol. -/
structure Grammar where
  nonTerminals : List String
  terminals : List String
  startSymbol : String
  productions : List (String × List String)
deriving Repr, DecidableEq

/-- _infer_terminals applied to productions and the lhs set. -/
def inferTerminals (productions : List (String × List String))
    (nonTerminals : List String) : List String :=
  (productions.foldl (fun acc p => sUnion acc p.2) []).filter
    (fun s => !nonTerminals.contains s)

/-- Build a Grammar from production lines the way load_grammar does. -/
def mkGrammar (productions : List (String × List String)) : Grammar :=
  let nts := productions.foldl (fun acc p => sAdd acc p.1) []
  ⟨nts, inferTerminals productions nts,
    (productions.headD ("", [])).1, productions⟩

/-! ## FIRST and FOLLOW: src/parser/first_follow.py -/

/-- Map from symbol to a set of symbols (the first / follow dicts). -/
abbrev SMap := List (String × List String)

/-- Initial FIRST map of compute_first: each terminal maps to itself,
each non-terminal to the empty set. -/
def firstInit (g : Grammar) : SMap :=
  g.terminals.map (fun t => (t, [t])) ++ g.nonTerminals.map (fun n => (n, []))

/-- Left-to-right rhs walk of compute_first for one production: union
in FIRST of each symbol minus epsilon, stop at the first non-nullable
symbol, add epsilon when every symbol was nullable. -/
def firstRhsLoop (fi : SMap) (lhs : String) : List String → SMap
  | [] => aset fi lhs (sAdd ((alookup fi lhs).getD []) "ε")
  | sym :: rest =>
    let fi2 := aset fi lhs (sUnion ((alookup fi lhs).getD [])
      (sDiff ((alookup fi sym).getD []) ["ε"]))
    if ((alookup fi2 sym).getD []).contains "ε" then firstRhsLoop fi2 lhs rest
    else fi2

/-- One production step of the compute_first pass, carrying the changed
flag (growth of FIRST(lhs) detected by size). -/
def firstPassProd (st : SMap × Bool) (p : String × List String) : SMap × Bool :=
  let (fi, changed) := st
  let old := ((alookup fi p.1).getD []).length
  let fi2 :=
    if p.2.isEmpty || p.2 == ["ε"] then
      aset fi p.1 (sAdd ((alookup fi p.1).getD []) "ε")
    else firstRhsLoop fi p.1 p.2
  (fi2, changed || decide (((alookup fi2 p.1).getD []).length > old))

/-- Fixed-point loop of compute_first. -/
def computeFirstLoop (g : Grammar) : Nat → SMap → Option SMap
  | 0, _ => none
  | fuel + 1, fi =>
    let (fi2, changed) := g.productions.foldl firstPassProd (fi, false)
    if changed then computeFirstLoop g fuel fi2 else some fi2

/-- compute_first. -/
def computeFirst (g : Grammar) (fuel : Nat) : Option SMap :=
  computeFirstLoop g fuel (firstInit g)

/-- The trailer variable of compute_follow.  In the source the trailer
is either a freshly copied set or a reference to the set object stored
in the first dict; updating an aliased trailer mutates that entry of
the first map.  The alias structure is modelled explicitly. -/
inductive Trailer where
  | fresh (s : List String)
  | ofFirst (x : String)

/-- Current value of the trailer under the current first map. -/
def trailerVal (fi : SMap) : Trailer → List String
  | .fresh s => s
  | .ofFirst x => (alookup fi x).getD []

/-- One right-to-left symbol step of compute_follow.  For a
non-terminal: grow FOLLOW(symbol) by the trailer; when the symbol is
nullable, trailer.update(first[symbol] minus epsilon) — which writes
through the alias into the first map when the trailer is an alias —
else re-alias the trailer to first[symbol].  For any other symbol the
trailer becomes an alias of first[symbol] when present. -/
def followSymStep (g : Grammar) (st : SMap × SMap × Bool × Trailer)
    (symbol : String) : SMap × SMap × Bool × Trailer :=
  let (fi, fo, ch, tr) := st
  if g.nonTerminals.contains symbol then
    let before := ((alookup fo symbol).getD []).length
    let fo2 := aset fo symbol (sUnion ((alookup fo symbol).getD [])
      (trailerVal fi tr))
    let after := ((alookup fo2 symbol).getD []).length
    let ch2 := ch || decide (after > before)
    if ((alookup fi symbol).getD []).contains "ε" then
      match tr with
      | .fresh s =>
        (fi, fo2, ch2, .fresh (sUnion s (sDiff ((alookup fi symbol).getD []) ["ε"])))
      | .ofFirst x =>
        (aset fi x (sUnion ((alookup fi x).getD [])
          (sDiff ((alookup fi symbol).getD []) ["ε"])), fo2, ch2, .ofFirst x)
    else (fi, fo2, ch2, .ofFirst symbol)
  else
    (fi, fo, ch,
      if (alookup fi symbol).isSome then .ofFirst symbol else .fresh [symbol])

/-- One production of the compute_follow pass: trailer starts as a copy
of FOLLOW(lhs), then the rhs is walked right to left. -/
def followPassProd (g : Grammar) (st : SMap × SMap × Bool)
    (p : String × List String) : SMap × SMap × Bool :=
  let tr0 := Trailer.fresh ((alookup st.2.1 p.1).getD [])
  let res := p.2.reverse.foldl (followSymStep g) (st.1, st.2.1, st.2.2, tr0)
  (res.1, res.2.1, res.2.2.1)

/-- Fixed-point loop of compute_follow; the loop watches only growth of
the follow sets, so it can exit with a mutated first map.  Both maps
are returned. -/
def computeFollowLoop (g : Grammar) : Nat → SMap → SMap → Option (SMap × SMap)
  | 0, _, _ => none
  | fuel + 1, fi, fo =>
    let res := g.productions.foldl (followPassProd g) (fi, fo, false)
    if res.2.2 then computeFollowLoop g fuel res.1 res.2.1
    else some (res.1, res.2.1)

/-- compute_follow: FOLLOW(start) seeded with the end marker; returns
the (possibly mutated) first map together with the follow map. -/
def computeFollow (g : Grammar) (fi : SMap) (fuel : Nat) :
    Option (SMap × SMap) :=
  computeFollowLoop g fuel fi (aset [] g.startSymbol ["$"])

/-! ## LR(0) items: src/parser/lr0_items.py -/

/-- An LR(0) item (lhs, rhs, dot). -/
abbrev Item := String × List String × Nat

/-- Set equality of item sets (Python set / frozenset equality). -/
def itemSetEq (a b : List Item) : Bool :=
  a.all (fun x => b.contains x) && b.all (fun x => a.contains x)

/-- One pass of the closure fixed point: collect the items a dotted
non-terminal contributes that are not yet present. -/
def closurePass (g : Grammar) (cs : List Item) : List Item × Bool :=
  let newItems := cs.foldl (fun acc it =>
    if it.2.2 < it.2.1.length then
      let symbol := it.2.1.getD it.2.2 ""
      if g.nonTerminals.contains symbol then
        g.productions.foldl (fun acc2 pr =>
          if pr.1 == symbol then
            let ni : Item := (pr.1, pr.2, 0)
            if cs.contains ni || acc2.contains ni then acc2 else acc2 ++ [ni]
          else acc2) acc
      else acc
    else acc) []
  (cs ++ newItems, !newItems.isEmpty)

/-- closure of lr0_items.py as the stable point of closurePass. -/
def closureFix (g : Grammar) : Nat → List Item → Option (List Item)
  | 0, _ => none
  | fuel + 1, cs =>
    let (cs2, changed) := closurePass g cs
    if changed then closureFix g fuel cs2 else some cs2

/-- goto of lr0_items.py: advance the dot over the symbol, then close;
the empty set is returned unclosed. -/
def gotoFn (g : Grammar) (fuel : Nat) (items : List Item) (symbol : String) :
    Option (List Item) :=
  let gs := items.foldl (fun acc it =>
    if it.2.2 < it.2.1.length && it.2.1.getD it.2.2 "" == symbol then
      let ni : Item := (it.1, it.2.1, it.2.2 + 1)
      if acc.contains ni then acc else acc ++ [ni]
    else acc) []
  if gs.isEmpty then some [] else closureFix g fuel gs

/-- The string consisting of one prime character (used by the grammar
augmentation). -/
def primeStr : String := String.mk [Char.ofNat 39]

/-- Append primes until the name is fresh among the non-terminals. -/
def freshAug (nts : List String) : Nat → String → String
  | 0, s => s
  | fuel + 1, s => if nts.contains s then freshAug nts fuel (s ++ primeStr) else s

/-- The augmentation performed at the top of canonical_collection: a
fresh primed start symbol with production going to the old start,
prepended at index 0. -/
def augment (g : Grammar) : Grammar :=
  let augStart := freshAug g.nonTerminals (g.nonTerminals.length + 1)
    (g.startSymbol ++ primeStr)
  ⟨sAdd g.nonTerminals augStart, g.terminals, augStart,
    (augStart, [g.startSymbol]) :: g.productions⟩

/-- Transition map of the canonical collection, keyed by item set (with
set equality, as Python frozensets) and symbol. -/
abbrev TransMap := List ((List Item × String) × List Item)

/-- Dict lookup with frozenset keys. -/
def transLookup (tr : TransMap) (st : List Item) (sym : String) :
    Option (List Item) :=
  match tr.find? (fun e => itemSetEq e.1.1 st && e.1.2 == sym) with
  | some e => some e.2
  | none => none

/-- Dict write with frozenset keys: replace in place or append. -/
def transSet (tr : TransMap) (st : List Item) (sym : String)
    (v : List Item) : TransMap :=
  match tr with
  | [] => [((st, sym), v)]
  | e :: rest =>
    if itemSetEq e.1.1 st && e.1.2 == sym then ((st, sym), v) :: rest
    else e :: transSet rest st sym v

/-- The dotted symbols of a state, in first-occurrence order (the
source collects them in a Python set, whose order is unspecified). -/
def dottedSymbols (st : List Item) : List String :=
  st.foldl (fun acc it =>
    if it.2.2 < it.2.1.length then sAdd acc (it.2.1.getD it.2.2 "") else acc) []

/-- Inner symbol handling of the canonical_collection pass: compute
goto; register unseen targets as new states with their transition;
otherwise point the transition at the already-registered equal set. -/
def ccSymbol (g : Grammar) (fuel : Nat) (state : List Item)
    (acc : Option (List (List Item) × List (List Item) × TransMap × Bool))
    (symbol : String) :
    Option (List (List Item) × List (List Item) × TransMap × Bool) :=
  match acc with
  | none => none
  | some (states, newStates, tr, added) =>
    match gotoFn g fuel state symbol with
    | none => none
    | some target =>
      if target.isEmpty then some (states, newStates, tr, added)
      else if !(states.any (fun s => itemSetEq s target)
          || newStates.any (fun s => itemSetEq s target)) then
        some (states, newStates ++ [target],
          transSet tr state symbol target, true)
      else
        match (states ++ newStates).find? (fun s => itemSetEq s target) with
        | some s => some (states, newStates, transSet tr state symbol s, added)
        | none => some (states, newStates, tr, added)

/-- One outer pass of canonical_collection over the current snapshot of
states. -/
def ccPass (g : Grammar) (fuel : Nat) (states : List (List Item))
    (tr : TransMap) :
    Option (List (List Item) × TransMap × Bool) :=
  match states.foldl (fun acc state =>
      (dottedSymbols state).foldl (ccSymbol g fuel state) acc)
    (some (states, [], tr, false)) with
  | none => none
  | some (sts, newStates, tr2, added) => some (sts ++ newStates, tr2, added)

/-- The while-added loop of canonical_collection. -/
def ccLoop (g : Grammar) (innerFuel : Nat) : Nat → List (List Item) →
    TransMap → Option (List (List Item) × TransMap)
  | 0, _, _ => none
  | fuel + 1, states, tr =>
    match ccPass g innerFuel states tr with
    | none => none
    | some (states2, tr2, added) =>
      if added then ccLoop g innerFuel fuel states2 tr2
      else some (states2, tr2)

/-- canonical_collection: augment the grammar, close the start item,
run the worklist; returns the states, the transitions and the
augmented grammar (the source mutates its grammar argument). -/
def canonicalCollection (g0 : Grammar) (fuel : Nat) :
    Option (List (List Item) × TransMap × Grammar) :=
  let g := augment g0
  let startItem : Item :=
    (g.startSymbol, [((g.productions.headD ("", [])).2.headD "")], 0)
  match closureFix g fuel [startItem] with
  | none => none
  | some s0 =>
    match ccLoop g fuel fuel [s0] [] with
    | none => none
    | some (states, tr) => some (states, tr, g)

/-! ## SLR table: src/parser/slr_table.py -/

/-- A parse action of the ACTION table. -/
inductive PAction where
  | shift (n : Nat)
  | reduce (lhs : String) (rhs : List String)
  | accept
deriving Repr, DecidableEq

/-- states.index(set(target)): the first index whose item set equals
the target; none models the ValueError. -/
def stateIndexOf (states : List (List Item)) (target : List Item) :
    Option Nat :=
  (states.enum.find? (fun e => itemSetEq e.2 target)).map (fun e => e.1)

/-- The sequence of ACTION-table and GOTO-table writes build_slr_table
performs for the items of one state (in item order). -/
def slrItemWrites (g : Grammar) (states : List (List Item)) (tr : TransMap)
    (follow : SMap) (idx : Nat) :
    List Item → Option (List ((Nat × String) × PAction) × List ((Nat × String) × Nat))
  | [] => some ([], [])
  | it :: rest =>
    let (lhs, rhs, dot) := it
    let here :
        Option (List ((Nat × String) × PAction) × List ((Nat × String) × Nat)) :=
      if dot < rhs.length then
        let symbol := rhs.getD dot ""
        let target := transLookup tr
          (states.getD idx []) symbol
        if g.terminals.contains symbol && target.isSome && target != some [] then
          match stateIndexOf states (target.getD []) with
          | some tIdx => some ([((idx, symbol), .shift tIdx)], [])
          | none => none
        else if g.nonTerminals.contains symbol && target.isSome
            && target != some [] then
          match stateIndexOf states (target.getD []) with
          | some tIdx => some ([], [((idx, symbol), tIdx)])
          | none => none
        else some ([], [])
      else if dot == rhs.length && lhs != g.startSymbol then
        some (((alookup follow lhs).getD []).map
          (fun t => ((idx, t), PAction.reduce lhs rhs)), [])
      else if lhs == g.startSymbol && dot == rhs.length then
        some ([((idx, "$"), PAction.accept)], [])
      else some ([], [])
    match here, slrItemWrites g states tr follow idx rest with
    | some (aw, gw), some (aw2, gw2) => some (aw ++ aw2, gw ++ gw2)
    | _, _ => none

/-- All table writes of build_slr_table, in state order. -/
def slrWrites (g : Grammar) (states : List (List Item)) (tr : TransMap)
    (follow : SMap) :
    Option (List ((Nat × String) × PAction) × List ((Nat × String) × Nat)) :=
  (List.range states.length).foldl (fun acc idx =>
    match acc, slrItemWrites g states tr follow idx (states.getD idx []) with
    | some (aw, gw), some (aw2, gw2) => some (aw ++ aw2, gw ++ gw2)
    | _, _ => none) (some ([], []))

/-- build_slr_table: the dicts obtained by performing the writes in
order (a later write to the same cell silently replaces the earlier
one, as Python dict assignment does). -/
def buildSlrTable (g : Grammar) (states : List (List Item)) (tr : TransMap)
    (follow : SMap) :
    Option (List ((Nat × String) × PAction) × List ((Nat × String) × Nat)) :=
  (slrWrites g states tr follow).map (fun w =>
    (w.1.foldl (fun t e => aset t e.1 e.2) [],
     w.2.foldl (fun t e => aset t e.1 e.2) []))

/-! ## SLR driver and symbol table: src/parser/slr_parser.py -/

/-- The SymbolTable class: lexeme to (index, category), counter
starting at 1, reserved-word categories. -/
structure SymTab where
  symbols : List (String × (Nat × String))
  counter : Nat
  reserved : List (String × String)
deriving Repr, DecidableEq

/-- SymbolTable.add_or_get. -/
def addOrGet (st : SymTab) (lexeme : String) : (Nat × String) × SymTab :=
  match alookup st.symbols lexeme with
  | some v => (v, st)
  | none =>
    let category := (alookup st.reserved lexeme).getD "ID"
    ((st.counter, category),
      ⟨st.symbols ++ [(lexeme, (st.counter, category))], st.counter + 1,
        st.reserved⟩)

/-- The reserved-words configuration of slr_parse_from_file. -/
def reservedWords : List (String × String) :=
  [("for", "PR"), ("if", "PR"), ("else", "PR"), ("while", "PR"),
   ("return", "PR")]

/-- Outcome of the driver together with its symbol table. -/
inductive ParseOutcome where
  | accepted (tab : SymTab)
  | rejected (tab : SymTab)
deriving Repr, DecidableEq

/-- Top state of the parse stack (head of the list models the end of
the Python list). -/
def topStateOf : List (String ⊕ Nat) → Option Nat
  | (Sum.inr n) :: _ => some n
  | _ => none

/-- Main loop of slr_parse_from_file: shift pushes the token and the
next state and interns the lexeme in the symbol table; reduce pops two
entries per rhs symbol (none for an epsilon rhs) and consults GOTO;
accept and missing entries terminate. -/
def slrLoop (actTbl : List ((Nat × String) × PAction))
    (gotoTbl : List ((Nat × String) × Nat))
    (tokens : List (String × String)) :
    Nat → Nat → List (String ⊕ Nat) → SymTab → Option ParseOutcome
  | 0, _, _, _ => none
  | fuel + 1, pointer, stack, tab =>
    match topStateOf stack with
    | none => some (.rejected tab)
    | some state =>
      let cur := tokens.getD pointer ("", "")
      match alookup actTbl (state, cur.2) with
      | none => some (.rejected tab)
      | some (.shift n) =>
        let tab2 := (addOrGet tab cur.1).2
        slrLoop actTbl gotoTbl tokens fuel (pointer + 1)
          (.inr n :: .inl cur.2 :: stack) tab2
      | some (.reduce lhs rhs) =>
        let stack2 := if rhs != ["ε"] then stack.drop (2 * rhs.length) else stack
        match topStateOf stack2 with
        | none => some (.rejected tab)
        | some s2 =>
          match alookup gotoTbl (s2, lhs) with
          | none => some (.rejected tab)
          | some gs =>
            slrLoop actTbl gotoTbl tokens fuel pointer
              (.inr gs :: .inl lhs :: stack2) tab
      | some .accept => some (.accepted tab)

/-- The parse of slr_parse_from_file on an already-loaded token list:
reject up front when any token is erro!, then run the table-driven
loop with the end marker appended. -/
def slrParse (actTbl : List ((Nat × String) × PAction))
    (gotoTbl : List ((Nat × String) × Nat))
    (tokenList : List (String × String)) (fuel : Nat) : Option ParseOutcome :=
  let tab0 : SymTab := ⟨[], 1, reservedWords⟩
  if tokenList.any (fun t => t.2 == "erro!") then some (.rejected tab0)
  else slrLoop actTbl gotoTbl (tokenList ++ [("$", "$")]) fuel 0
    [Sum.inr 0] tab0

/-! ## General lemmas: association lists, masks, sorted bit lists -/

theorem alookup_aset_self {α β : Type} [BEq α] [LawfulBEq α]
    (t : List (α × β)) (a : α) (b : β) : alookup (aset t a b) a = some b := by
  induction t with
  | nil => simp [aset, alookup]
  | cons e rest ih =>
    by_cases h : (e.1 == a) = true
    · simp only [aset, if_pos h, alookup]
      rw [if_pos (by simp)]
    · simp only [aset, if_neg h, alookup]
      exact ih

theorem alookup_aset_ne {α β : Type} [BEq α] [LawfulBEq α]
    (t : List (α × β)) (a k : α) (b : β) (h : ¬a = k) :
    alookup (aset t a b) k = alookup t k := by
  induction t with
  | nil =>
    simp only [aset, alookup]
    rw [if_neg (by simpa using h)]
  | cons e rest ih =>
    by_cases he : (e.1 == a) = true
    · have hea : e.1 = a := by simpa using he
      simp only [aset, if_pos he, alookup]
      rw [if_neg (by simpa using h), if_neg (by simp [hea]; exact h)]
    · simp only [aset, if_neg he, alookup]
      by_cases hk : (e.1 == k) = true
      · rw [if_pos hk, if_pos hk]
      · rw [if_neg hk, if_neg hk]
        exact ih

theorem alookup_foldl_aset_ne {α β : Type} [BEq α] [LawfulBEq α] :
    ∀ (l : List (α × β)) (t : List (α × β)) (k : α),
    (∀ e ∈ l, ¬e.1 = k) →
    alookup (l.foldl (fun acc kv => aset acc kv.1 kv.2) t) k = alookup t k := by
  intro l
  induction l with
  | nil => intro t k _; rfl
  | cons e rest ih =>
    intro t k h
    simp only [List.foldl_cons]
    rw [ih (aset t e.1 e.2) k (by intro x hx; exact h x (by simp [hx]))]
    exact alookup_aset_ne t e.1 k e.2 (h e (by simp))

theorem maskBitsAux_succ (f n base : Nat) :
    maskBitsAux (f + 1) n base =
      if n = 0 then []
      else if n % 2 = 1 then base :: maskBitsAux f (n / 2) (base + 1)
      else maskBitsAux f (n / 2) (base + 1) := rfl

theorem mem_maskBitsAux : ∀ (fuel n base p : Nat), n < 2 ^ fuel →
    (p ∈ maskBitsAux fuel n base ↔ ∃ k, p = base + k ∧ n.testBit k = true) := by
  intro fuel
  induction fuel with
  | zero =>
    intro n base p h
    have : n = 0 := by simpa using h
    subst this
    simp [maskBitsAux]
  | succ f ih =>
    intro n base p h
    by_cases hz : n = 0
    · subst hz; simp [maskBitsAux]
    · have hdiv : n / 2 < 2 ^ f := by
        have h2 : (2:Nat) ^ (f + 1) = 2 ^ f * 2 := by rw [Nat.pow_succ]
        omega
      have ihr := ih (n / 2) (base + 1) p hdiv
      rw [maskBitsAux_succ, if_neg hz]
      by_cases hpar : n % 2 = 1
      · rw [if_pos hpar, List.mem_cons]
        constructor
        · intro hc
          rcases hc with hc | hc
          · exact ⟨0, by omega, by rw [Nat.testBit_zero]; simp [hpar]⟩
          · rcases ihr.1 hc with ⟨k, hk1, hk2⟩
            exact ⟨k + 1, by omega, by rw [Nat.testBit_add_one]; exact hk2⟩
        · rintro ⟨k, hk1, hk2⟩
          cases k with
          | zero => left; omega
          | succ j =>
            right
            exact ihr.2 ⟨j, by omega, by rw [Nat.testBit_add_one] at hk2; exact hk2⟩
      · rw [if_neg hpar]
        constructor
        · intro hc
          rcases ihr.1 hc with ⟨k, hk1, hk2⟩
          exact ⟨k + 1, by omega, by rw [Nat.testBit_add_one]; exact hk2⟩
        · rintro ⟨k, hk1, hk2⟩
          cases k with
          | zero =>
            exfalso
            rw [Nat.testBit_zero] at hk2
            simp at hk2
            omega
          | succ j =>
            exact ihr.2 ⟨j, by omega, by rw [Nat.testBit_add_one] at hk2; exact hk2⟩

theorem maskBitsAux_ge : ∀ (fuel n base p : Nat),
    p ∈ maskBitsAux fuel n base → base ≤ p := by
  intro fuel
  induction fuel with
  | zero => intro n base p h; simp [maskBitsAux] at h
  | succ f ih =>
    intro n base p h
    rw [maskBitsAux_succ] at h
    by_cases hz : n = 0
    · rw [if_pos hz] at h; simp at h
    · rw [if_neg hz] at h
      by_cases hpar : n % 2 = 1
      · rw [if_pos hpar, List.mem_cons] at h
        rcases h with h | h
        · omega
        · have := ih (n / 2) (base + 1) p h; omega
      · rw [if_neg hpar] at h
        have := ih (n / 2) (base + 1) p h; omega

theorem maskBitsAux_sorted : ∀ (fuel n base : Nat),
    List.Pairwise (· < ·) (maskBitsAux fuel n base) := by
  intro fuel
  induction fuel with
  | zero => intro n base; simp [maskBitsAux]
  | succ f ih =>
    intro n base
    rw [maskBitsAux_succ]
    by_cases hz : n = 0
    · rw [if_pos hz]; simp
    · rw [if_neg hz]
      by_cases hpar : n % 2 = 1
      · rw [if_pos hpar, List.pairwise_cons]
        exact ⟨fun b hb => by have := maskBitsAux_ge f (n / 2) (base + 1) b hb; omega,
          ih (n / 2) (base + 1)⟩
      · rw [if_neg hpar]
        exact ih (n / 2) (base + 1)

theorem lt_two_pow_succ (n : Nat) : n < 2 ^ (n + 1) := by
  have h1 := Nat.lt_two_pow n
  have h2 : (2:Nat) ^ n ≤ 2 ^ (n + 1) := Nat.pow_le_pow_right (by omega) (by omega)
  omega

theorem mem_maskElems (m p : Nat) : p ∈ maskElems m ↔ m.testBit p = true := by
  unfold maskElems
  rw [mem_maskBitsAux (m + 1) m 0 p (lt_two_pow_succ m)]
  constructor
  · rintro ⟨k, hk1, hk2⟩; simpa [hk1] using hk2
  · intro h; exact ⟨p, by omega, h⟩

theorem maskElems_sorted (m : Nat) : List.Pairwise (· < ·) (maskElems m) :=
  maskBitsAux_sorted (m + 1) m 0

theorem sorted_le_getLastD : ∀ (l : List Nat), List.Pairwise (· < ·) l →
    ∀ p ∈ l, p ≤ l.getLastD 0 := by
  intro l
  induction l with
  | nil => intro _ p hp; simp at hp
  | cons x t ih =>
    intro hs p hp
    rw [List.pairwise_cons] at hs
    cases t with
    | nil => simp at hp; simp [hp]
    | cons y u =>
      have hlast : (x :: y :: u).getLastD 0 = (y :: u).getLastD 0 := by
        simp [List.getLastD]
      rw [hlast]
      rcases List.mem_cons.1 hp with hpx | hpt
      · subst hpx
        have hmem : (y :: u).getLastD 0 ∈ y :: u := by
          have : (y :: u).getLastD 0 = (y :: u).getLast (by simp) := by
            rw [List.getLastD_eq_getLast?]
            rw [List.getLast?_eq_getLast (y :: u) (by simp)]
            rfl
          rw [this]
          exact List.getLast_mem _
        have := hs.1 _ hmem
        omega
      · exact ih hs.2 p hpt

theorem testBit_le_maskMax (m p : Nat) (h : m.testBit p = true) :
    p ≤ maskMax m := by
  unfold maskMax
  exact sorted_le_getLastD (maskElems m) (maskElems_sorted m) p
    ((mem_maskElems m p).2 h)

/-! ## Lemmas about the longest-match scan of simulate_dfa_on_text -/

/-- The deterministic transition path of the DFA on a list of chars
(the state sequence the scan of simulate_dfa_on_text walks). -/
def dfaPath (dfa : AFD) : List Char → Nat → Option Nat
  | [], st => some st
  | c :: rest, st =>
    match lookupTrans dfa.transitions st (toStr c) with
    | none => none
    | some st2 => dfaPath dfa rest st2

/-- A recorded acceptance below the current index is never lost: the
scan returns a result at least as far. -/
theorem scanText_last_le (dfa : AFD) : ∀ (cs : List Char) (st j : Nat)
    (p : Nat × Nat), p.2 ≤ j →
    ∃ res, scanText dfa cs st j (some p) = some res ∧ p.2 ≤ res.2 := by
  intro cs
  induction cs with
  | nil => intro st j p hp; exact ⟨p, rfl, Nat.le_refl _⟩
  | cons c rest ih =>
    intro st j p hp
    cases hlk : lookupTrans dfa.transitions st (toStr c) with
    | none => exact ⟨p, by simp only [scanText, hlk], Nat.le_refl _⟩
    | some st2 =>
      simp only [scanText, hlk]
      by_cases hacc : dfa.accepts.contains st2 = true
      · rw [if_pos hacc]
        rcases ih st2 (j + 1) (st2, j + 1) (by simp) with ⟨res, h1, h2⟩
        exact ⟨res, h1, by simp at h2; omega⟩
      · rw [if_neg hacc]
        rcases ih st2 (j + 1) p (by omega) with ⟨res, h1, h2⟩
        exact ⟨res, h1, h2⟩

/-- Completeness of the scan: every accepting state reachable along the
path within the text yields a recorded acceptance at least that far. -/
theorem scanText_ge (dfa : AFD) : ∀ (cs : List Char) (st j k s : Nat)
    (last : Option (Nat × Nat)),
    1 ≤ k → k ≤ cs.length →
    dfaPath dfa (cs.take k) st = some s →
    dfa.accepts.contains s = true →
    (last = none ∨ ∃ p, last = some p ∧ p.2 ≤ j) →
    ∃ res, scanText dfa cs st j last = some res ∧ j + k ≤ res.2 := by
  intro cs
  induction cs with
  | nil =>
    intro st j k s last h1 h2 _ _ _
    simp at h2
    omega
  | cons c rest ih =>
    intro st j k s last h1 h2 hpath hacc hlast
    cases k with
    | zero => omega
    | succ k2 =>
      rw [List.take_succ_cons] at hpath
      simp only [dfaPath] at hpath
      cases hlk : lookupTrans dfa.transitions st (toStr c) with
      | none => rw [hlk] at hpath; simp at hpath
      | some st1 =>
        rw [hlk] at hpath
        simp only [] at hpath
        simp only [scanText, hlk]
        cases k2 with
        | zero =>
          simp only [List.take_zero, dfaPath] at hpath
          have hs1 : st1 = s := by simpa using hpath
          subst hs1
          rw [hacc]
          simp only [if_pos rfl]
          rcases scanText_last_le dfa rest st1 (j + 1) (st1, j + 1) (by simp)
            with ⟨res, hr1, hr2⟩
          exact ⟨res, hr1, by simp at hr2; omega⟩
        | succ k3 =>
          have hlast2 : (if dfa.accepts.contains st1 = true then
              some (st1, j + 1) else last) = none ∨
              ∃ p, (if dfa.accepts.contains st1 = true then
                some (st1, j + 1) else last) = some p ∧ p.2 ≤ j + 1 := by
            by_cases hac1 : dfa.accepts.contains st1 = true
            · right
              refine ⟨(st1, j + 1), ?_, by simp⟩
              rw [if_pos hac1]
            · rcases hlast with hl | ⟨p, hl1, hl2⟩
              · left; rw [if_neg hac1]; exact hl
              · right
                refine ⟨p, ?_, by omega⟩
                rw [if_neg hac1]; exact hl1
          rcases ih st1 (j + 1) (k3 + 1) s _ (by omega) (by simp at h2; omega)
            hpath hacc hlast2 with ⟨res, hr1, hr2⟩
          exact ⟨res, hr1, by omega⟩

/-- Soundness of the scan: a returned acceptance that is not the
incoming one comes from an accepting state on the path, within the
text. -/
theorem scanText_sound (dfa : AFD) : ∀ (cs : List Char) (st j : Nat)
    (last : Option (Nat × Nat)) (res : Nat × Nat),
    scanText dfa cs st j last = some res →
    last = some res ∨
      (j + 1 ≤ res.2 ∧ res.2 - j ≤ cs.length ∧
        dfaPath dfa (cs.take (res.2 - j)) st = some res.1 ∧
        dfa.accepts.contains res.1 = true) := by
  intro cs
  induction cs with
  | nil => intro st j last res h; left; exact h
  | cons c rest ih =>
    intro st j last res h
    cases hlk : lookupTrans dfa.transitions st (toStr c) with
    | none => simp only [scanText, hlk] at h; left; exact h
    | some st2 =>
      simp only [scanText, hlk] at h
      by_cases hacc : dfa.accepts.contains st2 = true
      · rw [if_pos hacc] at h
        rcases ih st2 (j + 1) (some (st2, j + 1)) res h with h1 | h1
        · have hres := Option.some.inj h1
          right
          refine ⟨by rw [← hres], by rw [← hres]; simp, ?_, by rw [← hres]; exact hacc⟩
          rw [← hres]
          simp only []
          have : j + 1 - j = 1 := by omega
          rw [this, List.take_succ_cons, List.take_zero]
          simp [dfaPath, hlk]
        · right
          obtain ⟨ha, hb, hc, hd⟩ := h1
          refine ⟨by omega, by simp; omega, ?_, hd⟩
          have hstep : res.2 - j = (res.2 - (j + 1)) + 1 := by omega
          rw [hstep, List.take_succ_cons]
          simp [dfaPath, hlk]
          exact hc
      · rw [if_neg hacc] at h
        rcases ih st2 (j + 1) last res h with h1 | h1
        · left; exact h1
        · right
          obtain ⟨ha, hb, hc, hd⟩ := h1
          refine ⟨by omega, by simp; omega, ?_, hd⟩
          have hstep : res.2 - j = (res.2 - (j + 1)) + 1 := by omega
          rw [hstep, List.take_succ_cons]
          simp [dfaPath, hlk]
          exact hc

/-- Unfolding of simulate_dfa_on_text at a position where the scan
finds an acceptance. -/
theorem simText_cons_some (dfa : AFD) (tm : List (Nat × String))
    (c : Char) (rest : List Char) (la : Nat × Nat)
    (hs : scanText dfa (c :: rest) dfa.start 0 none = some la) :
    simulateDfaOnText dfa tm (c :: rest) =
      (String.mk ((c :: rest).take la.2), (resolveToken tm la.1).getD "erro!")
        :: simulateDfaOnText dfa tm ((c :: rest).drop la.2) := by
  have hpos := scanText_none_pos dfa (c :: rest) dfa.start 0 la hs
  unfold simulateDfaOnText
  have hlen : (c :: rest).length = rest.length + 1 := by simp
  rw [hlen]
  simp only [simTextAux, hs]
  have hdrop : ((c :: rest).drop la.2).length ≤ rest.length := by
    simp; omega
  rw [simTextAux_fuel dfa tm rest.length ((c :: rest).drop la.2).length
    ((c :: rest).drop la.2) hdrop (Nat.le_refl _)]

/-- Unfolding of simulate_dfa_on_text at a position where the scan
finds no acceptance: the single char is emitted as erro! and scanning
resumes one char later. -/
theorem simText_cons_none (dfa : AFD) (tm : List (Nat × String))
    (c : Char) (rest : List Char)
    (hs : scanText dfa (c :: rest) dfa.start 0 none = none) :
    simulateDfaOnText dfa tm (c :: rest) =
      (toStr c, "erro!") :: simulateDfaOnText dfa tm rest := by
  unfold simulateDfaOnText
  have hlen : (c :: rest).length = rest.length + 1 := by simp
  rw [hlen]
  simp only [simTextAux, hs]

/-! ## Lemmas about the attribute traversal (syntax tree, followpos) -/

/-- Leaf positions of a tree, in traversal order. -/
def positionsOf : STree → List Nat
  | .leaf _ p => [p]
  | .unary _ c => positionsOf c
  | .binary _ l r => positionsOf l ++ positionsOf r

/-- Subtree relation on syntax trees. -/
inductive IsSubtree : STree → STree → Prop where
  | refl (t : STree) : IsSubtree t t
  | unaryChild {s c : STree} {op : String} :
      IsSubtree s c → IsSubtree s (.unary op c)
  | binL {s l r : STree} {op : String} :
      IsSubtree s l → IsSubtree s (.binary op l r)
  | binR {s l r : STree} {op : String} :
      IsSubtree s r → IsSubtree s (.binary op l r)

theorem subtree_positions {s t : STree} (h : IsSubtree s t) :
    ∀ p, p ∈ positionsOf s → p ∈ positionsOf t := by
  induction h with
  | refl => intro p hp; exact hp
  | unaryChild _ ih => intro p hp; exact ih p hp
  | binL _ ih =>
    intro p hp
    simp only [positionsOf, List.mem_append]
    exact Or.inl (ih p hp)
  | binR _ ih =>
    intro p hp
    simp only [positionsOf, List.mem_append]
    exact Or.inr (ih p hp)

/-- The attributes the traversal computes do not depend on the incoming
followpos map. -/
theorem trav_attr_indep : ∀ (t : STree) (m : FMap), (trav t m).1 = attrOf t := by
  intro t
  induction t with
  | leaf s p => intro m; rfl
  | unary op c ih =>
    intro m
    rcases hm : trav c m with ⟨a1, mm1⟩
    rcases h0 : trav c [] with ⟨a0, mm0⟩
    have ha : a1 = a0 := by
      have h1 := ih m
      have h2 := ih []
      rw [hm] at h1; rw [h0] at h2
      simp at h1 h2
      rw [h1, h2]
    simp only [trav, attrOf, hm, h0, ha]
    by_cases h1 : (op == "*") = true <;> by_cases h2 : (op == "+") = true <;>
      by_cases h3 : (op == "?") = true <;> simp [h1, h2, h3]
  | binary op l r ihl ihr =>
    intro m
    rcases hlm : trav l m with ⟨al1, m1⟩
    rcases hl0 : trav l [] with ⟨al0, m10⟩
    rcases hrm : trav r m1 with ⟨ar1, m2⟩
    rcases hr0 : trav r m10 with ⟨ar0, m20⟩
    have hal : al1 = al0 := by
      have h1 := ihl m; have h2 := ihl []
      rw [hlm] at h1; rw [hl0] at h2
      simp at h1 h2; rw [h1, h2]
    have har : ar1 = ar0 := by
      have h1 := ihr m1; have h2 := ihr m10
      rw [hrm] at h1; rw [hr0] at h2
      simp at h1 h2; rw [h1, h2]
    simp only [trav, attrOf, hlm, hl0, hrm, hr0, hal, har]
    by_cases h1 : (op == ".") = true <;> by_cases h2 : (op == "|") = true <;>
      simp [h1, h2]

/-- firstpos and lastpos only mention leaf positions of the tree. -/
theorem attr_bits_positions : ∀ (t : STree) (p : Nat),
    ((attrOf t).last.testBit p = true → p ∈ positionsOf t) ∧
    ((attrOf t).first.testBit p = true → p ∈ positionsOf t) := by
  intro t
  induction t with
  | leaf s q =>
    intro p
    constructor <;>
    · intro h
      simp only [attrOf, trav] at h
      rw [Nat.testBit_two_pow] at h
      simp at h
      simp [positionsOf, h]
  | unary op c ih =>
    intro p
    rcases h0 : trav c [] with ⟨a0, m0⟩
    have ha : a0 = attrOf c := by
      have := trav_attr_indep c []
      rw [h0] at this; simpa using this
    have hgoal : ∀ x : Nat, (attrOf c).last.testBit p = true ∨
        (attrOf c).first.testBit p = true → p ∈ positionsOf (STree.unary op c) := by
      intro _ hx
      simp only [positionsOf]
      rcases hx with hx | hx
      · exact (ih p).1 hx
      · exact (ih p).2 hx
    simp only [attrOf, trav, h0]
    by_cases h1 : (op == "*") = true
    · rw [if_pos h1]
      exact ⟨fun h => hgoal 0 (Or.inl (ha ▸ h)), fun h => hgoal 0 (Or.inr (ha ▸ h))⟩
    · rw [if_neg h1]
      by_cases h2 : (op == "+") = true
      · rw [if_pos h2]
        exact ⟨fun h => hgoal 0 (Or.inl (ha ▸ h)), fun h => hgoal 0 (Or.inr (ha ▸ h))⟩
      · rw [if_neg h2]
        by_cases h3 : (op == "?") = true
        · rw [if_pos h3]
          exact ⟨fun h => hgoal 0 (Or.inl (ha ▸ h)), fun h => hgoal 0 (Or.inr (ha ▸ h))⟩
        · rw [if_neg h3]
          constructor <;> (intro h; simp at h)
  | binary op l r ihl ihr =>
    intro p
    rcases hl0 : trav l [] with ⟨al, m1⟩
    rcases hr0 : trav r m1 with ⟨ar, m2⟩
    have hal : al = attrOf l := by
      have := trav_attr_indep l []; rw [hl0] at this; simpa using this
    have har : ar = attrOf r := by
      have := trav_attr_indep r m1; rw [hr0] at this; simpa using this
    have hmeml : ∀ q : Nat, q ∈ positionsOf l → q ∈ positionsOf (STree.binary op l r) := by
      intro q hq; simp only [positionsOf, List.mem_append]; exact Or.inl hq
    have hmemr : ∀ q : Nat, q ∈ positionsOf r → q ∈ positionsOf (STree.binary op l r) := by
      intro q hq; simp only [positionsOf, List.mem_append]; exact Or.inr hq
    simp only [attrOf, trav, hl0, hr0]
    by_cases h1 : (op == ".") = true
    · rw [if_pos h1]
      constructor
      · intro h
        simp only [] at h
        by_cases hn : (!ar.nullable) = true
        · rw [if_pos hn] at h
          exact hmemr p ((ihr p).1 (har ▸ h))
        · rw [if_neg hn] at h
          rw [Nat.testBit_lor] at h
          rw [Bool.or_eq_true] at h
          rcases h with h2 | h2
          · exact hmeml p ((ihl p).1 (hal ▸ h2))
          · exact hmemr p ((ihr p).1 (har ▸ h2))
      · intro h
        simp only [] at h
        by_cases hn : (!al.nullable) = true
        · rw [if_pos hn] at h
          exact hmeml p ((ihl p).2 (hal ▸ h))
        · rw [if_neg hn] at h
          rw [Nat.testBit_lor] at h
          rw [Bool.or_eq_true] at h
          rcases h with h2 | h2
          · exact hmeml p ((ihl p).2 (hal ▸ h2))
          · exact hmemr p ((ihr p).2 (har ▸ h2))
    · rw [if_neg h1]
      by_cases h2 : (op == "|") = true
      · rw [if_pos h2]
        constructor
        · intro h
          simp only [] at h
          rw [Nat.testBit_lor] at h
          rw [Bool.or_eq_true] at h
          rcases h with h3 | h3
          · exact hmeml p ((ihl p).1 (hal ▸ h3))
          · exact hmemr p ((ihr p).1 (har ▸ h3))
        · intro h
          simp only [] at h
          rw [Nat.testBit_lor] at h
          rw [Bool.or_eq_true] at h
          rcases h with h3 | h3
          · exact hmeml p ((ihl p).2 (hal ▸ h3))
          · exact hmemr p ((ihr p).2 (har ▸ h3))
      · rw [if_neg h2]
        constructor <;> (intro h; simp at h)

theorem alookup_fmapUpd (m : FMap) (qq v p : Nat) :
    alookup (fmapUpd m qq v) p =
      if p = qq then (alookup m p).map (fun w => w ||| v) else alookup m p := by
  induction m with
  | nil =>
    simp only [fmapUpd, List.map_nil, alookup]
    by_cases h : p = qq
    · rw [if_pos h]; rfl
    · rw [if_neg h]
  | cons e rest ih =>
    by_cases hk : e.1 = qq
    · by_cases hp : e.1 = p
      · have hpq : p = qq := by omega
        simp only [fmapUpd, List.map_cons]
        rw [if_pos (show (e.1 == qq) = true by simp [hk])]
        simp only [alookup]
        rw [if_pos (show (e.1 == p) = true by simp [hp]),
            if_pos (show (e.1 == p) = true by simp [hp]), if_pos hpq]
        rfl
      · simp only [fmapUpd, List.map_cons]
        rw [if_pos (show (e.1 == qq) = true by simp [hk])]
        simp only [alookup]
        rw [if_neg (show ¬(e.1 == p) = true by simp [hp]),
            if_neg (show ¬(e.1 == p) = true by simp [hp])]
        simpa [fmapUpd] using ih
    · by_cases hp : e.1 = p
      · have hpq : ¬p = qq := by omega
        simp only [fmapUpd, List.map_cons]
        rw [if_neg (show ¬(e.1 == qq) = true by simp [hk])]
        simp only [alookup]
        rw [if_pos (show (e.1 == p) = true by simp [hp]),
            if_pos (show (e.1 == p) = true by simp [hp]), if_neg hpq]
      · simp only [fmapUpd, List.map_cons]
        rw [if_neg (show ¬(e.1 == qq) = true by simp [hk])]
        simp only [alookup]
        rw [if_neg (show ¬(e.1 == p) = true by simp [hp]),
            if_neg (show ¬(e.1 == p) = true by simp [hp])]
        simpa [fmapUpd] using ih

theorem alookup_foldUpd (v p : Nat) : ∀ (l : List Nat) (m : FMap),
    alookup (l.foldl (fun acc q => fmapUpd acc q v) m) p =
      if p ∈ l then (alookup m p).map (fun w => w ||| v) else alookup m p := by
  intro l
  induction l with
  | nil => intro m; simp
  | cons q t ih =>
    intro m
    simp only [List.foldl_cons]
    rw [ih (fmapUpd m q v)]
    by_cases hq : p = q
    · subst hq
      rw [alookup_fmapUpd]
      rw [if_pos rfl]
      by_cases ht : p ∈ t
      · rw [if_pos ht, if_pos (by simp [ht])]
        cases alookup m p with
        | none => rfl
        | some w =>
          simp [Nat.or_assoc, Nat.or_self]
      · rw [if_neg ht, if_pos (by simp)]
    · rw [alookup_fmapUpd, if_neg hq]
      by_cases ht : p ∈ t
      · rw [if_pos ht, if_pos (by simp [ht])]
      · rw [if_neg ht, if_neg (by simp [hq, ht])]

theorem alookup_updAll (m : FMap) (ps v p : Nat) :
    alookup (updAll m ps v) p =
      if ps.testBit p = true then (alookup m p).map (fun w => w ||| v)
      else alookup m p := by
  unfold updAll
  rw [alookup_foldUpd]
  by_cases h : ps.testBit p = true
  · rw [if_pos ((mem_maskElems ps p).2 h), if_pos h]
  · rw [if_neg (fun hm => h ((mem_maskElems ps p).1 hm)), if_neg h]

/-- A position outside the tree keeps its followpos entry untouched. -/
theorem trav_lookup_outside : ∀ (t : STree) (m : FMap) (p : Nat),
    p ∉ positionsOf t → alookup (trav t m).2 p = alookup m p := by
  intro t
  induction t with
  | leaf s q =>
    intro m p hp
    simp only [positionsOf, List.mem_singleton] at hp
    simp only [trav, fmapSet]
    exact alookup_aset_ne m q p 0 (by omega)
  | unary op c ih =>
    intro m p hp
    simp only [positionsOf] at hp
    rcases hm : trav c m with ⟨a, m1⟩
    have hm1 : alookup m1 p = alookup m p := by
      have := ih m p hp
      rw [hm] at this
      exact this
    have ha : a = attrOf c := by
      have := trav_attr_indep c m; rw [hm] at this; simpa using this
    have hupd : alookup (updAll m1 a.last a.first) p = alookup m1 p := by
      rw [alookup_updAll]
      rw [if_neg ?_]
      intro hbit
      exact hp ((attr_bits_positions c p).1 (ha ▸ hbit))
    simp only [trav, hm]
    by_cases h1 : (op == "*") = true <;> by_cases h2 : (op == "+") = true <;>
      by_cases h3 : (op == "?") = true <;>
      simp [h1, h2, h3, hupd, hm1]
  | binary op l r ihl ihr =>
    intro m p hp
    simp only [positionsOf, List.mem_append] at hp
    push_neg at hp
    rcases hlm : trav l m with ⟨al, m1⟩
    rcases hrm : trav r m1 with ⟨ar, m2⟩
    have hm1 : alookup m1 p = alookup m p := by
      have := ihl m p hp.1; rw [hlm] at this; exact this
    have hm2 : alookup m2 p = alookup m1 p := by
      have := ihr m1 p hp.2; rw [hrm] at this; exact this
    have hal : al = attrOf l := by
      have := trav_attr_indep l m; rw [hlm] at this; simpa using this
    have hupd : alookup (updAll m2 al.last ar.first) p = alookup m2 p := by
      rw [alookup_updAll]
      rw [if_neg ?_]
      intro hbit
      exact hp.1 ((attr_bits_positions l p).1 (hal ▸ hbit))
    simp only [trav, hlm, hrm]
    by_cases h1 : (op == ".") = true <;> by_cases h2 : (op == "|") = true <;>
      simp [h1, h2, hupd, hm2, hm1]

/-- Every position of the tree has a followpos entry after the
traversal, and existing entries survive. -/
theorem trav_lookup_isSome : ∀ (t : STree) (m : FMap) (p : Nat),
    (p ∈ positionsOf t ∨ (alookup m p).isSome = true) →
    (alookup (trav t m).2 p).isSome = true := by
  intro t
  induction t with
  | leaf s q =>
    intro m p hp
    simp only [trav, fmapSet]
    by_cases hq : p = q
    · subst hq; rw [alookup_aset_self]; rfl
    · rw [alookup_aset_ne m q p 0 (by omega)]
      rcases hp with hp | hp
      · simp [positionsOf] at hp; omega
      · exact hp
  | unary op c ih =>
    intro m p hp
    simp only [positionsOf] at hp
    rcases hm : trav c m with ⟨a, m1⟩
    have hm1 : (alookup m1 p).isSome = true := by
      have := ih m p hp; rw [hm] at this; exact this
    have hupd : (alookup (updAll m1 a.last a.first) p).isSome = true := by
      rw [alookup_updAll]
      by_cases hb : a.last.testBit p = true
      · rw [if_pos hb]
        cases halk : alookup m1 p with
        | none => rw [halk] at hm1; simp at hm1
        | some w => simp
      · rw [if_neg hb]; exact hm1
    simp only [trav, hm]
    by_cases h1 : (op == "*") = true <;> by_cases h2 : (op == "+") = true <;>
      by_cases h3 : (op == "?") = true <;>
      simp [h1, h2, h3, hupd, hm1]
  | binary op l r ihl ihr =>
    intro m p hp
    simp only [positionsOf, List.mem_append] at hp
    rcases hlm : trav l m with ⟨al, m1⟩
    rcases hrm : trav r m1 with ⟨ar, m2⟩
    have hm2 : (alookup m2 p).isSome = true := by
      by_cases hr : p ∈ positionsOf r
      · have := ihr m1 p (Or.inl hr); rw [hrm] at this; exact this
      · have hlOr : p ∈ positionsOf l ∨ (alookup m p).isSome = true := by tauto
        have hm1 : (alookup m1 p).isSome = true := by
          have := ihl m p hlOr; rw [hlm] at this; exact this
        have := ihr m1 p (Or.inr hm1); rw [hrm] at this; exact this
    have hupd : (alookup (updAll m2 al.last ar.first) p).isSome = true := by
      rw [alookup_updAll]
      by_cases hb : al.last.testBit p = true
      · rw [if_pos hb]
        cases halk : alookup m2 p with
        | none => rw [halk] at hm2; simp at hm2
        | some w => simp
      · rw [if_neg hb]; exact hm2
    simp only [trav, hlm, hrm]
    by_cases h1 : (op == ".") = true <;> by_cases h2 : (op == "|") = true <;>
      simp [h1, h2, hupd, hm2]

/-- The final followpos map contains q among the followers of p. -/
def followContains (m2 : FMap) (p q : Nat) : Prop :=
  ∃ v, alookup m2 p = some v ∧ v.testBit q = true

/-- The followpos contributions a node owes according to the dragon-book
equations: at a concatenation, firstpos of the right child follows every
lastpos position of the left child; at a star or plus, firstpos of the
child follows every lastpos position of the child. -/
def Contrib (s : STree) (m2 : FMap) : Prop :=
  (∀ l r p q, s = STree.binary "." l r →
    (attrOf l).last.testBit p = true → (attrOf r).first.testBit q = true →
    followContains m2 p q)
  ∧ (∀ op c p q, s = STree.unary op c → (op = "*" ∨ op = "+") →
    (attrOf c).last.testBit p = true → (attrOf c).first.testBit q = true →
    followContains m2 p q)

theorem followContains_updAll {m : FMap} {p q : Nat} (ps v : Nat)
    (h : followContains m p q) : followContains (updAll m ps v) p q := by
  obtain ⟨w, hw1, hw2⟩ := h
  by_cases hb : ps.testBit p = true
  · exact ⟨w ||| v, by rw [alookup_updAll, if_pos hb, hw1]; rfl,
      by rw [Nat.testBit_lor, hw2]; rfl⟩
  · exact ⟨w, by rw [alookup_updAll, if_neg hb]; exact hw1, hw2⟩

theorem followContains_hit (m : FMap) (ps v p q : Nat)
    (hb : ps.testBit p = true) (hq : v.testBit q = true)
    (hs : (alookup m p).isSome = true) :
    followContains (updAll m ps v) p q := by
  cases halk : alookup m p with
  | none => rw [halk] at hs; simp at hs
  | some w =>
    exact ⟨w ||| v, by rw [alookup_updAll, if_pos hb, halk]; rfl,
      by rw [Nat.testBit_lor, hq]; simp⟩

theorem contribMonoOn {s : STree} {mA mB : FMap}
    (h : ∀ p q, p ∈ positionsOf s → followContains mA p q → followContains mB p q)
    (hc : Contrib s mA) : Contrib s mB := by
  constructor
  · intro l r p q heq hlast hfirst
    have hp : p ∈ positionsOf s := by
      subst heq
      simp only [positionsOf, List.mem_append]
      exact Or.inl ((attr_bits_positions l p).1 hlast)
    exact h p q hp (hc.1 l r p q heq hlast hfirst)
  · intro op c p q heq hop hlast hfirst
    have hp : p ∈ positionsOf s := by
      subst heq
      simp only [positionsOf]
      exact (attr_bits_positions c p).1 hlast
    exact h p q hp (hc.2 op c p q heq hop hlast hfirst)

/-- Main contribution lemma: after traversing a tree with distinct leaf
positions, the followpos map contains the contribution of every
concatenation, star and plus node of the tree. -/
theorem trav_contrib : ∀ (t : STree), (positionsOf t).Nodup →
    ∀ (m : FMap) (s : STree), IsSubtree s t → Contrib s (trav t m).2 := by
  intro t
  induction t with
  | leaf s0 p0 =>
    intro _ m s hsub
    cases hsub
    exact ⟨fun l r p q heq _ _ => STree.noConfusion heq,
           fun op c p q heq _ _ _ => STree.noConfusion heq⟩
  | unary op c ihc =>
    intro hnd m s hsub
    have hndc : (positionsOf c).Nodup := by
      simpa only [positionsOf] using hnd
    rcases hm : trav c m with ⟨a, m1⟩
    have ha : a = attrOf c := by
      have := trav_attr_indep c m; rw [hm] at this; simpa using this
    have hsnd : (trav (STree.unary op c) m).2 = updAll m1 a.last a.first ∨
        (trav (STree.unary op c) m).2 = m1 := by
      simp only [trav, hm]
      by_cases h1 : (op == "*") = true <;> by_cases h2 : (op == "+") = true <;>
        by_cases h3 : (op == "?") = true <;> simp [h1, h2, h3]
    cases hsub with
    | refl =>
      constructor
      · intro l r p q heq _ _; exact STree.noConfusion heq
      · intro op2 c2 p q heq hop hlast hfirst
        injection heq with hopeq hceq
        have hpl : p ∈ positionsOf c := by
          apply (attr_bits_positions c p).1
          rw [hceq]; exact hlast
        have hsome : (alookup m1 p).isSome = true := by
          have := trav_lookup_isSome c m p (Or.inl hpl)
          rw [hm] at this; exact this
        have hfin : (trav (STree.unary op c) m).2 = updAll m1 a.last a.first := by
          simp only [trav, hm]
          rcases hop with hop | hop <;> rw [← hopeq] at hop <;> subst hop <;> simp
        rw [hfin]
        apply followContains_hit m1 a.last a.first p q
        · rw [ha, hceq]; exact hlast
        · rw [ha, hceq]; exact hfirst
        · exact hsome
    | unaryChild hsubc =>
      have hcontrib : Contrib s m1 := by
        have := ihc hndc m s hsubc; rw [hm] at this; exact this
      rcases hsnd with h | h
      · rw [h]
        exact contribMonoOn (fun p q _ hf => followContains_updAll _ _ hf) hcontrib
      · rw [h]; exact hcontrib
  | binary op l r ihl ihr =>
    intro hnd m s hsub
    rw [show positionsOf (STree.binary op l r) = positionsOf l ++ positionsOf r
      from rfl, List.nodup_append] at hnd
    obtain ⟨hndl, hndr, hdisj⟩ := hnd
    rcases hlm : trav l m with ⟨al, m1⟩
    rcases hrm : trav r m1 with ⟨ar, m2⟩
    have hal : al = attrOf l := by
      have := trav_attr_indep l m; rw [hlm] at this; simpa using this
    have har : ar = attrOf r := by
      have := trav_attr_indep r m1; rw [hrm] at this; simpa using this
    have hsnd : (trav (STree.binary op l r) m).2 = updAll m2 al.last ar.first ∨
        (trav (STree.binary op l r) m).2 = m2 := by
      simp only [trav, hlm, hrm]
      by_cases h1 : (op == ".") = true <;> by_cases h2 : (op == "|") = true <;>
        simp [h1, h2]
    cases hsub with
    | refl =>
      constructor
      · intro l2 r2 p q heq hlast hfirst
        injection heq with hopeq hleq hreq
        have hpl : p ∈ positionsOf l := by
          apply (attr_bits_positions l p).1
          rw [hleq]; exact hlast
        have hsome1 : (alookup m1 p).isSome = true := by
          have := trav_lookup_isSome l m p (Or.inl hpl)
          rw [hlm] at this; exact this
        have hnr : p ∉ positionsOf r := fun hr => hdisj hpl hr
        have houts : alookup m2 p = alookup m1 p := by
          have := trav_lookup_outside r m1 p hnr
          rw [hrm] at this; exact this
        have hfin : (trav (STree.binary op l r) m).2 =
            updAll m2 al.last ar.first := by
          simp only [trav, hlm, hrm]
          subst hopeq
          simp
        rw [hfin]
        apply followContains_hit m2 al.last ar.first p q
        · rw [hal, hleq]; exact hlast
        · rw [har, hreq]; exact hfirst
        · rw [houts]; exact hsome1
      · intro op2 c2 p q heq _ _ _; exact STree.noConfusion heq
    | binL hsubl =>
      have hcontrib : Contrib s m1 := by
        have := ihl hndl m s hsubl; rw [hlm] at this; exact this
      have hstep : Contrib s m2 := by
        apply contribMonoOn ?_ hcontrib
        intro p q hp hf
        have hnr : p ∉ positionsOf r :=
          fun hr => hdisj (subtree_positions hsubl p hp) hr
        have houts := trav_lookup_outside r m1 p hnr
        rw [hrm] at houts
        obtain ⟨v, hv1, hv2⟩ := hf
        exact ⟨v, by rw [houts]; exact hv1, hv2⟩
      rcases hsnd with h | h
      · rw [h]
        exact contribMonoOn (fun p q _ hf => followContains_updAll _ _ hf) hstep
      · rw [h]; exact hstep
    | binR hsubr =>
      have hcontrib : Contrib s m2 := by
        have := ihr hndr m1 s hsubr; rw [hrm] at this; exact this
      rcases hsnd with h | h
      · rw [h]
        exact contribMonoOn (fun p q _ hf => followContains_updAll _ _ hf) hcontrib
      · rw [h]; exact hcontrib

/-! ## Lemmas about the escape remapping of simulate_dfa_on_line -/

/-- The metacharacters simulate_dfa_on_line remaps before the lookup. -/
def metaChars : List Char := ['+', '-', '*', '/', '(', ')', '[', ']', '\\']

/-- The bare one-character spellings of the metacharacters. -/
def bareMeta : List String := metaChars.map toStr

theorem escapedSymbol_mem_eq (c : Char) (h : c ∈ metaChars) :
    escapedSymbol c = String.mk ['\\', c] := by
  simp only [metaChars, List.mem_cons, List.not_mem_nil, or_false] at h
  rcases h with rfl | rfl | rfl | rfl | rfl | rfl | rfl | rfl | rfl <;> rfl

theorem escapedSymbol_not_mem_eq (c : Char) (h : ¬c ∈ metaChars) :
    escapedSymbol c = toStr c := by
  simp only [metaChars, List.mem_cons, List.not_mem_nil, or_false, not_or] at h
  obtain ⟨h1, h2, h3, h4, h5, h6, h7, h8, h9⟩ := h
  unfold escapedSymbol
  rw [if_neg h1, if_neg h2, if_neg h3, if_neg h4, if_neg h5, if_neg h6,
    if_neg h7, if_neg h8, if_neg h9]

theorem toStr_inj (a b : Char) (h : toStr a = toStr b) : a = b := by
  have h2 := congrArg String.data h
  simpa [toStr] using h2

theorem escapedSymbol_not_bare (c : Char) : ¬escapedSymbol c ∈ bareMeta := by
  intro hmem
  simp only [bareMeta, List.mem_map] at hmem
  obtain ⟨d, hd, hde⟩ := hmem
  by_cases hc : c ∈ metaChars
  · rw [escapedSymbol_mem_eq c hc] at hde
    have h2 := congrArg String.data hde
    simp [toStr] at h2
  · rw [escapedSymbol_not_mem_eq c hc] at hde
    cases toStr_inj d c hde
    exact hc hd

theorem lineWalk_cons (dfa : AFD) (c : Char) (rest : List Char) (st : Nat) :
    lineWalk dfa (c :: rest) st =
      match lookupTrans dfa.transitions st (escapedSymbol c) with
      | none => none
      | some st2 => lineWalk dfa rest st2 := rfl

theorem lineWalk_agree (dfaA dfaB : AFD)
    (h : ∀ st sym, ¬sym ∈ bareMeta →
      lookupTrans dfaA.transitions st sym = lookupTrans dfaB.transitions st sym) :
    ∀ (line : List Char) (st : Nat),
      lineWalk dfaA line st = lineWalk dfaB line st := by
  intro line
  induction line with
  | nil => intro st; rfl
  | cons c rest ih =>
    intro st
    rw [lineWalk_cons, lineWalk_cons,
      h st (escapedSymbol c) (escapedSymbol_not_bare c)]
    cases lookupTrans dfaB.transitions st (escapedSymbol c) with
    | none => rfl
    | some st2 => exact ih st2

theorem simulateDfaOnLine_agree (dfaA dfaB : AFD) (tm : List (Nat × String))
    (hs : dfaA.start = dfaB.start) (ha : dfaA.accepts = dfaB.accepts)
    (h : ∀ st sym, ¬sym ∈ bareMeta →
      lookupTrans dfaA.transitions st sym = lookupTrans dfaB.transitions st sym)
    (line : List Char) :
    simulateDfaOnLine dfaA tm line = simulateDfaOnLine dfaB tm line := by
  unfold simulateDfaOnLine
  rw [hs, ha, lineWalk_agree dfaA dfaB h line dfaB.start]

/-! ## Lemmas about token priority: the resolution picks the minimum id
carrying a kind, and the union keeps the first automaton low -/

theorem firstTokenIn_min (tm : List (Nat × String)) :
    ∀ (l : List Nat), List.Pairwise (fun a b => a < b) l →
    (∃ s ∈ l, (alookup tm s).isSome = true) →
    ∃ m, m ∈ l ∧ (alookup tm m).isSome = true ∧
      (∀ x ∈ l, (alookup tm x).isSome = true → m ≤ x) ∧
      firstTokenIn tm l = alookup tm m := by
  intro l
  induction l with
  | nil => intro _ hex; simp at hex
  | cons a rest ih =>
    intro hp hex
    rw [List.pairwise_cons] at hp
    by_cases ha : (alookup tm a).isSome = true
    · refine ⟨a, by simp, ha, ?_, ?_⟩
      · intro x hx _
        rcases List.mem_cons.1 hx with rfl | hxr
        · exact Nat.le_refl _
        · exact Nat.le_of_lt (hp.1 x hxr)
      · rcases Option.isSome_iff_exists.1 ha with ⟨t, ht⟩
        simp [firstTokenIn, ht]
    · have hnone : alookup tm a = none := by
        cases halo : alookup tm a with
        | none => rfl
        | some t => rw [halo] at ha; simp at ha
      have hex2 : ∃ s ∈ rest, (alookup tm s).isSome = true := by
        rcases hex with ⟨s, hs, hss⟩
        rcases List.mem_cons.1 hs with rfl | hsr
        · exact absurd hss ha
        · exact ⟨s, hsr, hss⟩
      rcases ih hp.2 hex2 with ⟨m, hm, hms, hmin, heq⟩
      refine ⟨m, by simp [hm], hms, ?_, ?_⟩
      · intro x hx hxs
        rcases List.mem_cons.1 hx with rfl | hxr
        · exact absurd hxs ha
        · exact hmin x hxr hxs
      · simp [firstTokenIn, hnone, heq]

theorem resolveToken_min (tm : List (Nat × String)) (substates s : Nat)
    (hs : substates.testBit s = true) (hsome : (alookup tm s).isSome = true) :
    ∃ m, substates.testBit m = true ∧ (alookup tm m).isSome = true ∧
      (∀ x, substates.testBit x = true → (alookup tm x).isSome = true → m ≤ x) ∧
      resolveToken tm substates = alookup tm m := by
  have hex : ∃ x ∈ maskElems substates, (alookup tm x).isSome = true :=
    ⟨s, (mem_maskElems substates s).2 hs, hsome⟩
  rcases firstTokenIn_min tm (maskElems substates) (maskElems_sorted substates)
    hex with ⟨m, hm, hms, hmin, heq⟩
  exact ⟨m, (mem_maskElems substates m).1 hm, hms,
    fun x hx hxs => hmin x ((mem_maskElems substates x).2 hx) hxs, heq⟩

theorem afnUnion_tokenTypes_low (a1 a2 : AFN) (x : Nat)
    (hx : x < maskMax a1.states + 1) :
    alookup (afnUnion a1 a2).tokenTypes x = alookup a1.tokenTypes x := by
  have h1 : (afnUnion a1 a2).tokenTypes =
      (offsetStates a2 (maskMax a1.states + 1)).tokenTypes.foldl
        (fun acc kv => aset acc kv.1 kv.2) a1.tokenTypes := rfl
  rw [h1]
  apply alookup_foldl_aset_ne
  intro e he
  simp only [offsetStates, List.mem_map] at he
  obtain ⟨kv, hkv, rfl⟩ := he
  show ¬kv.1 + (maskMax a1.states + 1) = x
  omega

theorem afnUnion_finals_eq (a1 a2 : AFN) :
    (afnUnion a1 a2).finals =
      a1.finals ||| a2.finals <<< (maskMax a1.states + 1) := rfl

theorem afnUnion_finals_left (a1 a2 : AFN) (p : Nat)
    (hp : a1.finals.testBit p = true) :
    (afnUnion a1 a2).finals.testBit p = true := by
  rw [afnUnion_finals_eq, Nat.testBit_lor, hp]
  simp

theorem afnUnion_finals_right (a1 a2 : AFN) (q : Nat)
    (hq : a2.finals.testBit q = true) :
    (afnUnion a1 a2).finals.testBit (q + (maskMax a1.states + 1)) = true := by
  rw [afnUnion_finals_eq, Nat.testBit_lor, Nat.testBit_shiftLeft]
  have h2 : q + (maskMax a1.states + 1) - (maskMax a1.states + 1) = q := by
    omega
  rw [h2, hq]
  have h1 : maskMax a1.states + 1 ≤ q + (maskMax a1.states + 1) := by omega
  simp [h1]

/-! ## Last write wins in the table folds, and the per-line simulator -/

theorem alookup_foldl_writes {α β : Type} [BEq α] [LawfulBEq α] :
    ∀ (l : List (α × β)) (t : List (α × β)) (cell : α),
    alookup (l.foldl (fun acc e => aset acc e.1 e.2) t) cell =
      ((l.filter (fun e => e.1 == cell)).map (fun e => some e.2)).getLastD
        (alookup t cell) := by
  intro l
  induction l with
  | nil => intro t cell; rfl
  | cons e rest ih =>
    intro t cell
    simp only [List.foldl_cons, List.filter_cons]
    by_cases h : (e.1 == cell) = true
    · rw [if_pos h, List.map_cons, List.getLastD_cons, ih]
      have hec : e.1 = cell := by simpa using h
      rw [hec, alookup_aset_self]
    · rw [if_neg h, ih, alookup_aset_ne t e.1 cell e.2 (by simpa using h)]

theorem simulateDfaOnLine_lexeme (dfa : AFD) (tm : List (Nat × String))
    (line : List Char) :
    (simulateDfaOnLine dfa tm line).1 = String.mk line := by
  cases hw : lineWalk dfa line dfa.start with
  | none => simp only [simulateDfaOnLine, hw]
  | some st =>
    simp only [simulateDfaOnLine, hw]
    by_cases hacc : dfa.accepts.contains st = true
    · rw [if_pos hacc]
      cases hres : resolveToken tm st with
      | none => rfl
      | some t => rfl
    · rw [if_neg hacc]

theorem simulateDfaOnLine_kind_of (dfa : AFD) (tm : List (Nat × String))
    (line : List Char) (st : Nat) (t : String)
    (hw : lineWalk dfa line dfa.start = some st)
    (hacc : dfa.accepts.contains st = true)
    (hres : resolveToken tm st = some t) :
    simulateDfaOnLine dfa tm line = (String.mk line, t) := by
  simp only [simulateDfaOnLine, hw]
  rw [if_pos hacc]
  simp only [hres]

theorem simulateDfaOnLine_success (dfa : AFD) (tm : List (Nat × String))
    (line : List Char)
    (h : ¬(simulateDfaOnLine dfa tm line).2 = "erro!") :
    ∃ st t, lineWalk dfa line dfa.start = some st ∧
      dfa.accepts.contains st = true ∧ resolveToken tm st = some t ∧
      simulateDfaOnLine dfa tm line = (String.mk line, t) := by
  cases hw : lineWalk dfa line dfa.start with
  | none =>
    exfalso
    apply h
    simp only [simulateDfaOnLine, hw]
  | some st =>
    by_cases hacc : dfa.accepts.contains st = true
    · cases hres : resolveToken tm st with
      | none =>
        exfalso
        apply h
        simp only [simulateDfaOnLine, hw]
        rw [if_pos hacc]
        simp only [hres]
      | some t =>
        refine ⟨st, t, rfl, hacc, hres, ?_⟩
        simp only [simulateDfaOnLine, hw]
        rw [if_pos hacc]
        simp only [hres]
    · exfalso
      apply h
      simp only [simulateDfaOnLine, hw]
      rw [if_neg hacc]

theorem runLexer_records (dfa : AFD) (tm : List (Nat × String))
    (inputLines : List (List Char)) :
    runLexer dfa tm inputLines =
      ((inputLines.map pyStrip).filter (fun l => !l.isEmpty)).map
        (fun line => (String.mk line, (simulateDfaOnLine dfa tm line).2)) := by
  unfold runLexer
  apply List.map_congr_left
  intro line _
  have h1 := simulateDfaOnLine_lexeme dfa tm line
  cases hv : simulateDfaOnLine dfa tm line with
  | mk a b =>
    rw [hv] at h1
    simp at h1
    rw [h1]

/-! ## Concrete data: the S1 regex definitions and the artifacts of the
lexer pipeline on them.  The literal values below are the computed
stage results; each stage lemma checks the stage function against its
literal, and the pipeline lemmas chain them. -/

/-- The S1 regex definitions exactly as the spec writes them: the
metacharacter patterns are unescaped. -/
def idPat : List Char := "[a-zA-Z]([a-zA-Z]|[0-9])*".data

/-- The unescaped metacharacter patterns of the spec. -/
def plusPatL : List Char := "+".data
def timesPatL : List Char := "*".data
def lparPatL : List Char := "(".data
def rparPatL : List Char := ")".data

/-- The escaped metacharacter patterns. -/
def plusPatE : List Char := "\\+".data
def timesPatE : List Char := "\\*".data
def lparPatE : List Char := "\\(".data
def rparPatE : List Char := "\\)".data

def s1LiteralDefs : List (String × List Char) :=
  [("id", idPat), ("plus", plusPatL), ("times", timesPatL),
   ("lpar", lparPatL), ("rpar", rparPatL)]

/-- The S1 regex definitions with the metacharacter patterns escaped,
the only form the regex compiler accepts. -/
def s1EscapedDefs : List (String × List Char) :=
  [("id", idPat), ("plus", plusPatE), ("times", timesPatE),
   ("lpar", lparPatE), ("rpar", rparPatE)]

def idExportLit : ExportedAfd :=
  ⟨2, 0, [1],
  ["0", "1", "2", "3", "4", "5", "6", "7", "8", "9", "A", "B", "C", "D", "E", "F", "G", "H", "I", "J", "K", "L", "M", "N", "O", "P", "Q", "R", "S", "T", "U", "V", "W", "X", "Y", "Z", "a", "b", "c", "d", "e", "f", "g", "h", "i", "j", "k", "l", "m", "n", "o", "p", "q", "r", "s", "t", "u", "v", "w", "x", "y", "z"],
  [(0, "a", 1), (0, "b", 1), (0, "c", 1), (0, "d", 1), (0, "e", 1), (0, "f", 1), (0, "g", 1), (0, "h", 1), (0, "i", 1), (0, "j", 1), (0, "k", 1), (0, "l", 1), (0, "m", 1), (0, "n", 1), (0, "o", 1), (0, "p", 1), (0, "q", 1), (0, "r", 1), (0, "s", 1), (0, "t", 1), (0, "u", 1), (0, "v", 1), (0, "w", 1), (0, "x", 1), (0, "y", 1), (0, "z", 1), (0, "A", 1), (0, "B", 1), (0, "C", 1), (0, "D", 1), (0, "E", 1), (0, "F", 1), (0, "G", 1), (0, "H", 1), (0, "I", 1), (0, "J", 1), (0, "K", 1), (0, "L", 1), (0, "M", 1), (0, "N", 1), (0, "O", 1), (0, "P", 1), (0, "Q", 1), (0, "R", 1), (0, "S", 1), (0, "T", 1), (0, "U", 1), (0, "V", 1), (0, "W", 1), (0, "X", 1), (0, "Y", 1), (0, "Z", 1), (1, "a", 1), (1, "b", 1), (1, "c", 1), (1, "d", 1), (1, "e", 1), (1, "f", 1), (1, "g", 1), (1, "h", 1), (1, "i", 1), (1, "j", 1), (1, "k", 1), (1, "l", 1), (1, "m", 1), (1, "n", 1), (1, "o", 1), (1, "p", 1), (1, "q", 1), (1, "r", 1), (1, "s", 1), (1, "t", 1), (1, "u", 1), (1, "v", 1), (1, "w", 1), (1, "x", 1), (1, "y", 1), (1, "z", 1), (1, "A", 1), (1, "B", 1), (1, "C", 1), (1, "D", 1), (1, "E", 1), (1, "F", 1), (1, "G", 1), (1, "H", 1), (1, "I", 1), (1, "J", 1), (1, "K", 1), (1, "L", 1), (1, "M", 1), (1, "N", 1), (1, "O", 1), (1, "P", 1), (1, "Q", 1), (1, "R", 1), (1, "S", 1), (1, "T", 1), (1, "U", 1), (1, "V", 1), (1, "W", 1), (1, "X", 1), (1, "Y", 1), (1, "Z", 1), (1, "0", 1), (1, "1", 1), (1, "2", 1), (1, "3", 1), (1, "4", 1), (1, "5", 1), (1, "6", 1), (1, "7", 1), (1, "8", 1), (1, "9", 1)]⟩

def plusExportLit : ExportedAfd :=
  ⟨2, 0, [1],
  ["\\+"],
  [(0, "\\+", 1)]⟩

def timesExportLit : ExportedAfd :=
  ⟨2, 0, [1],
  ["\\*"],
  [(0, "\\*", 1)]⟩

def lparExportLit : ExportedAfd :=
  ⟨2, 0, [1],
  ["\\("],
  [(0, "\\(", 1)]⟩

def rparExportLit : ExportedAfd :=
  ⟨2, 0, [1],
  ["\\)"],
  [(0, "\\)", 1)]⟩


/-- The union NFA of the five reloaded pattern automata. -/
def s1UnionLit : AFN :=
  ⟨16383, 13, 4682,
  [(0, [("a", 2), ("b", 2), ("c", 2), ("d", 2), ("e", 2), ("f", 2), ("g", 2), ("h", 2), ("i", 2), ("j", 2), ("k", 2), ("l", 2), ("m", 2), ("n", 2), ("o", 2), ("p", 2), ("q", 2), ("r", 2), ("s", 2), ("t", 2), ("u", 2), ("v", 2), ("w", 2), ("x", 2), ("y", 2), ("z", 2), ("A", 2), ("B", 2), ("C", 2), ("D", 2), ("E", 2), ("F", 2), ("G", 2), ("H", 2), ("I", 2), ("J", 2), ("K", 2), ("L", 2), ("M", 2), ("N", 2), ("O", 2), ("P", 2), ("Q", 2), ("R", 2), ("S", 2), ("T", 2), ("U", 2), ("V", 2), ("W", 2), ("X", 2), ("Y", 2), ("Z", 2)]),
   (1, [("a", 2), ("b", 2), ("c", 2), ("d", 2), ("e", 2), ("f", 2), ("g", 2), ("h", 2), ("i", 2), ("j", 2), ("k", 2), ("l", 2), ("m", 2), ("n", 2), ("o", 2), ("p", 2), ("q", 2), ("r", 2), ("s", 2), ("t", 2), ("u", 2), ("v", 2), ("w", 2), ("x", 2), ("y", 2), ("z", 2), ("A", 2), ("B", 2), ("C", 2), ("D", 2), ("E", 2), ("F", 2), ("G", 2), ("H", 2), ("I", 2), ("J", 2), ("K", 2), ("L", 2), ("M", 2), ("N", 2), ("O", 2), ("P", 2), ("Q", 2), ("R", 2), ("S", 2), ("T", 2), ("U", 2), ("V", 2), ("W", 2), ("X", 2), ("Y", 2), ("Z", 2), ("0", 2), ("1", 2), ("2", 2), ("3", 2), ("4", 2), ("5", 2), ("6", 2), ("7", 2), ("8", 2), ("9", 2)]),
   (2, [("\\+", 8)]),
   (4, [("ε", 5)]),
   (5, [("\\*", 64)]),
   (7, [("ε", 48)]),
   (8, [("\\(", 512)]),
   (10, [("ε", 384)]),
   (11, [("\\)", 4096)]),
   (13, [("ε", 3072)])],
  ["0", "1", "2", "3", "4", "5", "6", "7", "8", "9", "A", "B", "C", "D", "E", "F", "G", "H", "I", "J", "K", "L", "M", "N", "O", "P", "Q", "R", "S", "T", "U", "V", "W", "X", "Y", "Z", "a", "b", "c", "d", "e", "f", "g", "h", "i", "j", "k", "l", "m", "n", "o", "p", "q", "r", "s", "t", "u", "v", "w", "x", "y", "z", "\\+", "ε", "\\*", "\\(", "\\)"],
  [(1, "id"), (3, "plus"), (6, "times"), (9, "lpar"), (12, "rpar")]⟩

/-- The combined DFA of the subset construction on s1UnionLit. -/
def s1DfaLit : AFD :=
  ⟨11701, [2, 8, 64, 512, 4096],
  [(11701, [("A", 2), ("B", 2), ("C", 2), ("D", 2), ("E", 2), ("F", 2), ("G", 2), ("H", 2), ("I", 2), ("J", 2), ("K", 2), ("L", 2), ("M", 2), ("N", 2), ("O", 2), ("P", 2), ("Q", 2), ("R", 2), ("S", 2), ("T", 2), ("U", 2), ("V", 2), ("W", 2), ("X", 2), ("Y", 2), ("Z", 2), ("a", 2), ("b", 2), ("c", 2), ("d", 2), ("e", 2), ("f", 2), ("g", 2), ("h", 2), ("i", 2), ("j", 2), ("k", 2), ("l", 2), ("m", 2), ("n", 2), ("o", 2), ("p", 2), ("q", 2), ("r", 2), ("s", 2), ("t", 2), ("u", 2), ("v", 2), ("w", 2), ("x", 2), ("y", 2), ("z", 2), ("\\+", 8), ("\\*", 64), ("\\(", 512), ("\\)", 4096)]),
   (2, [("0", 2), ("1", 2), ("2", 2), ("3", 2), ("4", 2), ("5", 2), ("6", 2), ("7", 2), ("8", 2), ("9", 2), ("A", 2), ("B", 2), ("C", 2), ("D", 2), ("E", 2), ("F", 2), ("G", 2), ("H", 2), ("I", 2), ("J", 2), ("K", 2), ("L", 2), ("M", 2), ("N", 2), ("O", 2), ("P", 2), ("Q", 2), ("R", 2), ("S", 2), ("T", 2), ("U", 2), ("V", 2), ("W", 2), ("X", 2), ("Y", 2), ("Z", 2), ("a", 2), ("b", 2), ("c", 2), ("d", 2), ("e", 2), ("f", 2), ("g", 2), ("h", 2), ("i", 2), ("j", 2), ("k", 2), ("l", 2), ("m", 2), ("n", 2), ("o", 2), ("p", 2), ("q", 2), ("r", 2), ("s", 2), ("t", 2), ("u", 2), ("v", 2), ("w", 2), ("x", 2), ("y", 2), ("z", 2)]),
   (8, []),
   (64, []),
   (512, []),
   (4096, [])],
  [(1, "id"), (3, "plus"), (6, "times"), (9, "lpar"), (12, "rpar")]⟩

/-- The token map of the combined DFA. -/
def s1TmLit : List (Nat × String) := [(1, "id"), (3, "plus"), (6, "times"), (9, "lpar"), (12, "rpar")]


theorem idExportEq : regexToExported idPat = some idExportLit := by rfl

theorem plusExportEq : regexToExported plusPatE = some plusExportLit := by
  rfl

theorem timesExportEq : regexToExported timesPatE = some timesExportLit := by
  rfl

theorem lparExportEq : regexToExported lparPatE = some lparExportLit := by
  rfl

theorem rparExportEq : regexToExported rparPatE = some rparExportLit := by
  rfl

/-- The unescaped pattern of plus fails to compile: its postfix form
starts with the unary operator. -/
theorem plusLiteralFails : regexToExported plusPatL = none := by rfl

theorem s1UnionEq : buildUnionAfn s1EscapedDefs = some s1UnionLit := by
  simp only [buildUnionAfn, s1EscapedDefs, buildAfnList, idExportEq,
    plusExportEq, timesExportEq, lparExportEq, rparExportEq]
  rfl

theorem s1ToAfdEq : toAfd s1UnionLit 1000 = some (s1DfaLit, s1TmLit) := by rfl

theorem s1LexerEq : buildLexerDfa s1EscapedDefs = some (s1DfaLit, s1TmLit) := by
  unfold buildLexerDfa
  rw [s1UnionEq]
  exact s1ToAfdEq

theorem s1LiteralBuildFails : buildLexerDfa s1LiteralDefs = none := by
  unfold buildLexerDfa buildUnionAfn
  simp only [s1LiteralDefs, buildAfnList, idExportEq, plusLiteralFails]

/-! ## Concrete grammars: the S3 expression grammar, the conflict
grammar and the epsilon grammar of the FIRST mutation -/

/-- The S3 grammar E := E + T | T ; T := T * F | F ; F := ( E ) | id. -/
def gS3 : Grammar := mkGrammar [("E", ["E", "+", "T"]), ("E", ["T"]),
  ("T", ["T", "*", "F"]), ("T", ["F"]), ("F", ["(", "E", ")"]), ("F", ["id"])]

/-- A non-SLR grammar with a reduce-reduce conflict: S := A | B ; A := a ; B := a. -/
def gC : Grammar := mkGrammar [("S", ["A"]), ("S", ["B"]),
  ("A", ["a"]), ("B", ["a"])]

/-- A grammar with a nullable non-terminal before a terminal: S := B c ; B := b | ε. -/
def g7 : Grammar := mkGrammar [("S", ["B", "c"]), ("B", ["b"]), ("B", ["ε"])]

/-- The token stream of the S4 input a1+b*(c) after the loader remap. -/
def s4Tokens : List (String × String) :=
  [("a1", "id"), ("+", "+"), ("b", "id"), ("*", "*"), ("(", "("),
   ("c", "id"), (")", ")")]

/-- The augmented start symbols (a prime appended). -/
def primeE : String := "E" ++ primeStr

def primeS : String := "S" ++ primeStr

def s3State0 : List Item := [(primeE, ["E"], 0), ("E", ["E", "+", "T"], 0), ("E", ["T"], 0), ("T", ["T", "*", "F"], 0), ("T", ["F"], 0), ("F", ["(", "E", ")"], 0), ("F", ["id"], 0)]

def s3State1 : List Item := [(primeE, ["E"], 1), ("E", ["E", "+", "T"], 1)]

def s3State2 : List Item := [("E", ["T"], 1), ("T", ["T", "*", "F"], 1)]

def s3State3 : List Item := [("T", ["F"], 1)]

def s3State4 : List Item := [("F", ["(", "E", ")"], 1), ("E", ["E", "+", "T"], 0), ("E", ["T"], 0), ("T", ["T", "*", "F"], 0), ("T", ["F"], 0), ("F", ["(", "E", ")"], 0), ("F", ["id"], 0)]

def s3State5 : List Item := [("F", ["id"], 1)]

def s3State6 : List Item := [("E", ["E", "+", "T"], 2), ("T", ["T", "*", "F"], 0), ("T", ["F"], 0), ("F", ["(", "E", ")"], 0), ("F", ["id"], 0)]

def s3State7 : List Item := [("T", ["T", "*", "F"], 2), ("F", ["(", "E", ")"], 0), ("F", ["id"], 0)]

def s3State8 : List Item := [("F", ["(", "E", ")"], 2), ("E", ["E", "+", "T"], 1)]

def s3State9 : List Item := [("E", ["E", "+", "T"], 3), ("T", ["T", "*", "F"], 1)]

def s3State10 : List Item := [("T", ["T", "*", "F"], 3)]

def s3State11 : List Item := [("F", ["(", "E", ")"], 3)]

def s3StatesLit : List (List Item) := [s3State0, s3State1, s3State2, s3State3, s3State4, s3State5, s3State6, s3State7, s3State8, s3State9, s3State10, s3State11]

def s3TransLit : TransMap := [((s3State0, "E"), s3State1), ((s3State0, "T"), s3State2), ((s3State0, "F"), s3State3), ((s3State0, "("), s3State4), ((s3State0, "id"), s3State5), ((s3State1, "+"), s3State6), ((s3State2, "*"), s3State7), ((s3State4, "E"), s3State8), ((s3State4, "T"), s3State2), ((s3State4, "F"), s3State3), ((s3State4, "("), s3State4), ((s3State4, "id"), s3State5), ((s3State6, "T"), s3State9), ((s3State6, "F"), s3State3), ((s3State6, "("), s3State4), ((s3State6, "id"), s3State5), ((s3State7, "F"), s3State10), ((s3State7, "("), s3State4), ((s3State7, "id"), s3State5), ((s3State8, ")"), s3State11), ((s3State8, "+"), s3State6), ((s3State9, "*"), s3State7)]

def s3GAug : Grammar := { nonTerminals := ["E", "T", "F", primeE], terminals := ["+", "*", "(", ")", "id"], startSymbol := primeE, productions := [(primeE, ["E"]), ("E", ["E", "+", "T"]), ("E", ["T"]), ("T", ["T", "*", "F"]), ("T", ["F"]), ("F", ["(", "E", ")"]), ("F", ["id"])] }

def s3First : SMap := [("+", ["+"]), ("*", ["*"]), ("(", ["("]), (")", [")"]), ("id", ["id"]), ("E", ["(", "id"]), ("T", ["(", "id"]), ("F", ["(", "id"])]

def s3FirstAfter : SMap := [("+", ["+"]), ("*", ["*"]), ("(", ["("]), (")", [")"]), ("id", ["id"]), ("E", ["(", "id"]), ("T", ["(", "id"]), ("F", ["(", "id"])]

def s3Follow : SMap := [("E", ["$", "+", ")"]), ("T", ["$", "+", "*", ")"]), ("F", ["$", "+", "*", ")"])]

def s3Act : List ((Nat × String) × PAction) := [((0, "("), PAction.shift 4), ((0, "id"), PAction.shift 5), ((1, "$"), PAction.accept), ((1, "+"), PAction.shift 6), ((2, "$"), PAction.reduce "E" ["T"]), ((2, "+"), PAction.reduce "E" ["T"]), ((2, ")"), PAction.reduce "E" ["T"]), ((2, "*"), PAction.shift 7), ((3, "$"), PAction.reduce "T" ["F"]), ((3, "+"), PAction.reduce "T" ["F"]), ((3, "*"), PAction.reduce "T" ["F"]), ((3, ")"), PAction.reduce "T" ["F"]), ((4, "("), PAction.shift 4), ((4, "id"), PAction.shift 5), ((5, "$"), PAction.reduce "F" ["id"]), ((5, "+"), PAction.reduce "F" ["id"]), ((5, "*"), PAction.reduce "F" ["id"]), ((5, ")"), PAction.reduce "F" ["id"]), ((6, "("), PAction.shift 4), ((6, "id"), PAction.shift 5), ((7, "("), PAction.shift 4), ((7, "id"), PAction.shift 5), ((8, ")"), PAction.shift 11), ((8, "+"), PAction.shift 6), ((9, "$"), PAction.reduce "E" ["E", "+", "T"]), ((9, "+"), PAction.reduce "E" ["E", "+", "T"]), ((9, ")"), PAction.reduce "E" ["E", "+", "T"]), ((9, "*"), PAction.shift 7), ((10, "$"), PAction.reduce "T" ["T", "*", "F"]), ((10, "+"), PAction.reduce "T" ["T", "*", "F"]), ((10, "*"), PAction.reduce "T" ["T", "*", "F"]), ((10, ")"), PAction.reduce "T" ["T", "*", "F"]), ((11, "$"), PAction.reduce "F" ["(", "E", ")"]), ((11, "+"), PAction.reduce "F" ["(", "E", ")"]), ((11, "*"), PAction.reduce "F" ["(", "E", ")"]), ((11, ")"), PAction.reduce "F" ["(", "E", ")"])]

def s3Goto : List ((Nat × String) × Nat) := [((0, "E"), 1), ((0, "T"), 2), ((0, "F"), 3), ((4, "E"), 8), ((4, "T"), 2), ((4, "F"), 3), ((6, "T"), 9), ((6, "F"), 3), ((7, "F"), 10)]

def s4Tab : SymTab := { symbols := [("a1", 1, "ID"), ("+", 2, "ID"), ("b", 3, "ID"), ("*", 4, "ID"), ("(", 5, "ID"), ("c", 6, "ID"), (")", 7, "ID")], counter := 8, reserved := [("for", "PR"), ("if", "PR"), ("else", "PR"), ("while", "PR"), ("return", "PR")] }

def gCState0 : List Item := [(primeS, ["S"], 0), ("S", ["A"], 0), ("S", ["B"], 0), ("A", ["a"], 0), ("B", ["a"], 0)]

def gCState1 : List Item := [(primeS, ["S"], 1)]

def gCState2 : List Item := [("S", ["A"], 1)]

def gCState3 : List Item := [("S", ["B"], 1)]

def gCState4 : List Item := [("A", ["a"], 1), ("B", ["a"], 1)]

def gCStatesLit : List (List Item) := [gCState0, gCState1, gCState2, gCState3, gCState4]

def gCTransLit : TransMap := [((gCState0, "S"), gCState1), ((gCState0, "A"), gCState2), ((gCState0, "B"), gCState3), ((gCState0, "a"), gCState4)]

def gCGAug : Grammar := { nonTerminals := ["S", "A", "B", primeS], terminals := ["a"], startSymbol := primeS, productions := [(primeS, ["S"]), ("S", ["A"]), ("S", ["B"]), ("A", ["a"]), ("B", ["a"])] }

def gCFirst : SMap := [("a", ["a"]), ("S", ["a"]), ("A", ["a"]), ("B", ["a"])]

def gCFollow : SMap := [("S", ["$"]), ("A", ["$"]), ("B", ["$"])]

def gCActWrites : List ((Nat × String) × PAction) := [((0, "a"), PAction.shift 4), ((0, "a"), PAction.shift 4), ((1, "$"), PAction.accept), ((2, "$"), PAction.reduce "S" ["A"]), ((3, "$"), PAction.reduce "S" ["B"]), ((4, "$"), PAction.reduce "A" ["a"]), ((4, "$"), PAction.reduce "B" ["a"])]

def gCGotoWrites : List ((Nat × String) × Nat) := [((0, "S"), 1), ((0, "A"), 2), ((0, "B"), 3)]

def gCAct : List ((Nat × String) × PAction) := [((0, "a"), PAction.shift 4), ((1, "$"), PAction.accept), ((2, "$"), PAction.reduce "S" ["A"]), ((3, "$"), PAction.reduce "S" ["B"]), ((4, "$"), PAction.reduce "B" ["a"])]

def gCGoto : List ((Nat × String) × Nat) := [((0, "S"), 1), ((0, "A"), 2), ((0, "B"), 3)]

def g7First : SMap := [("c", ["c"]), ("b", ["b"]), ("ε", ["ε"]), ("S", ["b", "c"]), ("B", ["b", "ε"])]

def g7FirstAfter : SMap := [("c", ["c", "b"]), ("b", ["b"]), ("ε", ["ε"]), ("S", ["b", "c"]), ("B", ["b", "ε"])]

def g7Follow : SMap := [("S", ["$"]), ("B", ["c", "b"])]

/-! ## Stage equalities: the parser pipeline evaluated on the concrete
grammars -/

theorem s3FirstEq : computeFirst gS3 50 = some s3First := rfl

theorem s3FollowEq : computeFollow gS3 s3First 50 = some (s3FirstAfter, s3Follow) := rfl

theorem s3CCEq : canonicalCollection gS3 50 = some (s3StatesLit, s3TransLit, s3GAug) := rfl

theorem s3TablesEq : buildSlrTable s3GAug s3StatesLit s3TransLit s3Follow = some (s3Act, s3Goto) := rfl

theorem s3ParseEq : slrParse s3Act s3Goto s4Tokens 100 = some (.accepted s4Tab) := rfl

theorem gCFirstEq : computeFirst gC 50 = some gCFirst := rfl

theorem gCFollowEq : computeFollow gC gCFirst 50 = some (gCFirst, gCFollow) := rfl

theorem gCCCEq : canonicalCollection gC 50 = some (gCStatesLit, gCTransLit, gCGAug) := rfl

theorem gCWritesEq : slrWrites gCGAug gCStatesLit gCTransLit gCFollow = some (gCActWrites, gCGotoWrites) := rfl

theorem gCTablesEq : buildSlrTable gCGAug gCStatesLit gCTransLit gCFollow = some (gCAct, gCGoto) := rfl

theorem g7FirstEq : computeFirst g7 50 = some g7First := rfl

theorem g7FollowEq : computeFollow g7 g7First 50 = some (g7FirstAfter, g7Follow) := rfl


/-! ## The claims -/

theorem attrOf_plus_node (c : STree) :
    attrOf (STree.unary "+" c) =
      ⟨(attrOf c).nullable, (attrOf c).first, (attrOf c).last⟩ := by
  rcases hm : trav c [] with ⟨a, m1⟩
  have ha : attrOf c = a := by rw [attrOf, hm]
  rw [ha]
  simp [attrOf, trav, hm]

theorem attrOf_cat_node (l r : STree) :
    attrOf (STree.binary "." l r) =
      ⟨(attrOf l).nullable && (attrOf r).nullable,
       if !(attrOf l).nullable then (attrOf l).first
         else (attrOf l).first ||| (attrOf r).first,
       if !(attrOf r).nullable then (attrOf r).last
         else (attrOf l).last ||| (attrOf r).last⟩ := by
  rcases hl : trav l [] with ⟨al, m1⟩
  rcases hr : trav r m1 with ⟨ar, m2⟩
  have hal : attrOf l = al := by rw [attrOf, hl]
  have har : attrOf r = ar := by
    have h2 := trav_attr_indep r m1
    rw [hr] at h2
    exact h2.symm
  rw [hal, har]
  simp [attrOf, trav, hl, hr]

/-- C1 (amended): with the metacharacter patterns escaped, the lexer
pipeline builds, the line-wise lexer run on the seven lexemes yields
exactly the expected token list, and the text simulator on the raw text
a1+b*(c) marks the metacharacters as erro!. -/
theorem c1_tokenize_s1 :
    buildLexerDfa s1EscapedDefs = some (s1DfaLit, s1TmLit) ∧
    runLexer s1DfaLit s1TmLit
      ["a1".data, "+".data, "b".data, "*".data, "(".data, "c".data,
       ")".data] =
      [("a1", "id"), ("+", "plus"), ("b", "id"), ("*", "times"),
       ("(", "lpar"), ("c", "id"), (")", "rpar")] ∧
    simulateDfaOnText s1DfaLit s1TmLit "a1+b*(c)".data =
      [("a1", "id"), ("+", "erro!"), ("b", "id"), ("*", "erro!"),
       ("(", "erro!"), ("c", "id"), (")", "erro!")] :=
  ⟨s1LexerEq, by rfl, by rfl⟩

/-- C1 counterexample: with the regex definitions exactly as written in
the claim the pipeline fails to build, and the text simulator of the
escaped pipeline does not produce the claimed token list. -/
theorem c1_cex :
    buildLexerDfa s1LiteralDefs = none ∧
    ¬simulateDfaOnText s1DfaLit s1TmLit "a1+b*(c)".data =
      [("a1", "id"), ("+", "plus"), ("b", "id"), ("*", "times"),
       ("(", "lpar"), ("c", "id"), (")", "rpar")] :=
  ⟨s1LiteralBuildFails, by decide⟩

/-- C2 (amended): build_slr_table never rejects; every cell of the
ACTION table holds the LAST write targeting it, so a conflicting
second action silently replaces the first; on the grammar
S - A or B, A - a, B - a, two distinct reduce actions target the cell
(4, dollar) and the built table keeps the later one. -/
theorem c2_last_write_wins :
    (∀ (g : Grammar) (states : List (List Item)) (tr : TransMap)
       (follow : SMap) (aw : List ((Nat × String) × PAction))
       (gw : List ((Nat × String) × Nat)) (cell : Nat × String),
      slrWrites g states tr follow = some (aw, gw) →
      buildSlrTable g states tr follow =
        some (aw.foldl (fun t e => aset t e.1 e.2) [],
              gw.foldl (fun t e => aset t e.1 e.2) []) ∧
      alookup (aw.foldl (fun t e => aset t e.1 e.2) []) cell =
        ((aw.filter (fun e => e.1 == cell)).map
          (fun e => some e.2)).getLastD none) ∧
    slrWrites gCGAug gCStatesLit gCTransLit gCFollow =
      some (gCActWrites, gCGotoWrites) ∧
    ((4, "$"), PAction.reduce "A" ["a"]) ∈ gCActWrites ∧
    ((4, "$"), PAction.reduce "B" ["a"]) ∈ gCActWrites ∧
    buildSlrTable gCGAug gCStatesLit gCTransLit gCFollow =
      some (gCAct, gCGoto) ∧
    alookup gCAct (4, "$") = some (PAction.reduce "B" ["a"]) := by
  refine ⟨?_, gCWritesEq, by decide, by decide, gCTablesEq, by decide⟩
  intro g states tr follow aw gw cell hw
  constructor
  · rw [buildSlrTable, hw]
    rfl
  · rw [alookup_foldl_writes]
    rfl

/-- C2 witness: the general last-write law applied to the conflict
grammar at the conflicting cell. -/
theorem c2_witness :
    buildSlrTable gCGAug gCStatesLit gCTransLit gCFollow =
      some (gCActWrites.foldl (fun t e => aset t e.1 e.2) [],
            gCGotoWrites.foldl (fun t e => aset t e.1 e.2) []) ∧
    alookup (gCActWrites.foldl (fun t e => aset t e.1 e.2) []) (4, "$") =
      ((gCActWrites.filter (fun e => e.1 == ((4 : Nat), "$"))).map
        (fun e => some e.2)).getLastD none :=
  c2_last_write_wins.1 gCGAug gCStatesLit gCTransLit gCFollow
    gCActWrites gCGotoWrites (4, "$") gCWritesEq

/-- C2 counterexample: on the conflict grammar two distinct reduce
actions are written to the same ACTION cell and build_slr_table still
returns a table (keeping the later action) instead of rejecting. -/
theorem c2_cex :
    computeFirst gC 50 = some gCFirst ∧
    computeFollow gC gCFirst 50 = some (gCFirst, gCFollow) ∧
    canonicalCollection gC 50 = some (gCStatesLit, gCTransLit, gCGAug) ∧
    slrWrites gCGAug gCStatesLit gCTransLit gCFollow =
      some (gCActWrites, gCGotoWrites) ∧
    ((4, "$"), PAction.reduce "A" ["a"]) ∈ gCActWrites ∧
    ((4, "$"), PAction.reduce "B" ["a"]) ∈ gCActWrites ∧
    ¬PAction.reduce "A" ["a"] = PAction.reduce "B" ["a"] ∧
    buildSlrTable gCGAug gCStatesLit gCTransLit gCFollow =
      some (gCAct, gCGoto) ∧
    alookup gCAct (4, "$") = some (PAction.reduce "B" ["a"]) :=
  ⟨gCFirstEq, gCFollowEq, gCCCEq, gCWritesEq, by decide, by decide,
   by decide, gCTablesEq, by decide⟩

/-- C3: the union offsets every state of the second automaton past the
largest state of the first, so the finals and the token entries of the
earlier automaton keep their small ids, and the token resolution of the
simulators returns the token of the smallest substate id that carries
one. -/
theorem c3_pattern_priority :
    (∀ (a1 a2 : AFN),
      (∀ p, a1.finals.testBit p = true → a1.states.testBit p = true) →
      (∀ p, a1.finals.testBit p = true →
        (afnUnion a1 a2).finals.testBit p = true ∧
        p < maskMax a1.states + 1) ∧
      (∀ q, a2.finals.testBit q = true →
        (afnUnion a1 a2).finals.testBit (q + (maskMax a1.states + 1)) = true ∧
        maskMax a1.states < q + (maskMax a1.states + 1)) ∧
      (∀ x, x < maskMax a1.states + 1 →
        alookup (afnUnion a1 a2).tokenTypes x = alookup a1.tokenTypes x)) ∧
    (∀ (tm : List (Nat × String)) (substates s : Nat),
      substates.testBit s = true → (alookup tm s).isSome = true →
      ∃ m, substates.testBit m = true ∧ (alookup tm m).isSome = true ∧
        (∀ x, substates.testBit x = true → (alookup tm x).isSome = true →
          m ≤ x) ∧
        resolveToken tm substates = alookup tm m) := by
  constructor
  · intro a1 a2 hsub
    refine ⟨?_, ?_, ?_⟩
    · intro p hp
      refine ⟨afnUnion_finals_left a1 a2 p hp, ?_⟩
      have := testBit_le_maskMax a1.states p (hsub p hp)
      omega
    · intro q hq
      exact ⟨afnUnion_finals_right a1 a2 q hq, by omega⟩
    · intro x hx
      exact afnUnion_tokenTypes_low a1 a2 x hx
  · intro tm substates s hs hsome
    exact resolveToken_min tm substates s hs hsome

/-- C3 witness: resolution over the accepting substates mask 4682 of
the S1 union picks substate 1, the smallest carrying a token. -/
theorem c3_witness :
    ∃ m, (4682 : Nat).testBit m = true ∧
      (alookup s1TmLit m).isSome = true ∧
      (∀ x, (4682 : Nat).testBit x = true →
        (alookup s1TmLit x).isSome = true → m ≤ x) ∧
      resolveToken s1TmLit 4682 = alookup s1TmLit m :=
  c3_pattern_priority.2 s1TmLit 4682 1 (by decide) (by decide)

/-- C4: when the scan of simulate_dfa_on_text records an acceptance,
that acceptance is an accepting path prefix, it is at least as long as
every accepting path prefix, and the emitted record is exactly that
longest prefix with scanning resuming after it. -/
theorem c4_longest_match :
    ∀ (dfa : AFD) (tm : List (Nat × String)) (c : Char)
      (rest : List Char) (la : Nat × Nat),
      scanText dfa (c :: rest) dfa.start 0 none = some la →
      (1 ≤ la.2 ∧ la.2 ≤ (c :: rest).length ∧
        dfaPath dfa ((c :: rest).take la.2) dfa.start = some la.1 ∧
        dfa.accepts.contains la.1 = true) ∧
      (∀ k s, 1 ≤ k → k ≤ (c :: rest).length →
        dfaPath dfa ((c :: rest).take k) dfa.start = some s →
        dfa.accepts.contains s = true → k ≤ la.2) ∧
      simulateDfaOnText dfa tm (c :: rest) =
        (String.mk ((c :: rest).take la.2),
          (resolveToken tm la.1).getD "erro!")
          :: simulateDfaOnText dfa tm ((c :: rest).drop la.2) := by
  intro dfa tm c rest la h
  refine ⟨?_, ?_, simText_cons_some dfa tm c rest la h⟩
  · rcases scanText_sound dfa (c :: rest) dfa.start 0 none la h with h1 | h1
    · exact Option.noConfusion h1
    · obtain ⟨ha, hb, hc2, hd⟩ := h1
      have hz : la.2 - 0 = la.2 := by omega
      rw [hz] at hb hc2
      exact ⟨by omega, by simpa using hb, hc2, hd⟩
  · intro k s hk1 hk2 hpath hacc
    rcases scanText_ge dfa (c :: rest) dfa.start 0 k s none hk1 hk2 hpath
      hacc (Or.inl rfl) with ⟨res, hres, hge⟩
    rw [h] at hres
    have he : la = res := Option.some.inj hres
    rw [← he] at hge
    omega

/-- C4 witness: on the S1 DFA and the text a1+b the scan records the
acceptance (2, 2) and the first emitted record is the two-character
lexeme a1. -/
theorem c4_witness :
    simulateDfaOnText s1DfaLit s1TmLit ('a' :: "1+b".data) =
      (String.mk (('a' :: "1+b".data).take 2),
        (resolveToken s1TmLit 2).getD "erro!")
        :: simulateDfaOnText s1DfaLit s1TmLit (('a' :: "1+b".data).drop 2) :=
  (c4_longest_match s1DfaLit s1TmLit 'a' "1+b".data (2, 2) (by rfl)).2.2

/-- C5 (amended): at a position where no non-empty prefix reaches an
accepting state along the transition path, simulate_dfa_on_text emits
the single first character as erro! and resumes one character later;
with the escaped S1 pipeline the input 1a tokenizes to (1, erro!)
followed by (a, id). -/
theorem c5_error_recovery :
    (∀ (dfa : AFD) (tm : List (Nat × String)) (c : Char)
       (rest : List Char),
      (∀ k s, 1 ≤ k → k ≤ (c :: rest).length →
        dfaPath dfa ((c :: rest).take k) dfa.start = some s →
        dfa.accepts.contains s = false) →
      simulateDfaOnText dfa tm (c :: rest) =
        (toStr c, "erro!") :: simulateDfaOnText dfa tm rest) ∧
    simulateDfaOnText s1DfaLit s1TmLit "1a".data =
      [("1", "erro!"), ("a", "id")] := by
  constructor
  · intro dfa tm c rest hyp
    cases hs : scanText dfa (c :: rest) dfa.start 0 none with
    | none => exact simText_cons_none dfa tm c rest hs
    | some la =>
      exfalso
      rcases scanText_sound dfa (c :: rest) dfa.start 0 none la hs
        with h1 | h1
      · exact Option.noConfusion h1
      · obtain ⟨ha, hb, hc2, hd⟩ := h1
        have hz : la.2 - 0 = la.2 := by omega
        rw [hz] at hb hc2
        have hf := hyp la.2 la.1 (by omega) (by simpa using hb) hc2
        rw [hf] at hd
        exact Bool.false_ne_true hd
  · rfl

/-- C5 witness: the recovery law applied to the S1 DFA at the digit 1,
where no prefix of 1a is accepting. -/
theorem c5_witness :
    simulateDfaOnText s1DfaLit s1TmLit ('1' :: ['a']) =
      (toStr '1', "erro!") :: simulateDfaOnText s1DfaLit s1TmLit ['a'] :=
  c5_error_recovery.1 s1DfaLit s1TmLit '1' ['a'] (by
    intro k s hk1 hk2 hpath
    have hk2b : k ≤ 2 := by simpa using hk2
    have hn : dfaPath s1DfaLit (('1' :: ['a']).take k) s1DfaLit.start =
        none := by
      interval_cases k
      · rfl
      · rfl
    rw [hn] at hpath
    exact Option.noConfusion hpath)

/-- C5 counterexample: the claim quantifies over the S1 tokenizer, but
with the patterns written as in the spec the plus and times regexes do
not even compile, so no such tokenizer is built. -/
theorem c5_cex :
    regexToExported plusPatL = none ∧ regexToExported timesPatL = none :=
  ⟨plusLiteralFails, by rfl⟩

/-- C6 (amended): the S4 parse accepts, but the driver interns every
shifted lexeme, so the symbol table holds all seven lexemes in shift
order and maps a1, b, c to 1, 3, 6. -/
theorem c6_parse_s4 :
    computeFirst gS3 50 = some s3First ∧
    computeFollow gS3 s3First 50 = some (s3FirstAfter, s3Follow) ∧
    canonicalCollection gS3 50 = some (s3StatesLit, s3TransLit, s3GAug) ∧
    buildSlrTable s3GAug s3StatesLit s3TransLit s3Follow =
      some (s3Act, s3Goto) ∧
    slrParse s3Act s3Goto s4Tokens 100 = some (.accepted s4Tab) ∧
    s4Tab.symbols =
      [("a1", (1, "ID")), ("+", (2, "ID")), ("b", (3, "ID")),
       ("*", (4, "ID")), ("(", (5, "ID")), ("c", (6, "ID")),
       (")", (7, "ID"))] :=
  ⟨s3FirstEq, s3FollowEq, s3CCEq, s3TablesEq, s3ParseEq, rfl⟩

/-- C6 counterexample: the parse accepts but the symbol table does not
map b to index 2 and c to index 3 as claimed. -/
theorem c6_cex :
    slrParse s3Act s3Goto s4Tokens 100 = some (.accepted s4Tab) ∧
    ¬(alookup s4Tab.symbols "b" = some (2, "ID") ∧
      alookup s4Tab.symbols "c" = some (3, "ID")) :=
  ⟨s3ParseEq, by decide⟩

/-- C7: compute_follow mutates the FIRST map it is given: on the
grammar S - B c, B - b or ε, FIRST(c) is the singleton c before the
call and contains b afterwards, through the aliased trailer. -/
theorem c7_follow_mutates_first :
    computeFirst g7 50 = some g7First ∧
    alookup g7First "c" = some ["c"] ∧
    computeFollow g7 g7First 50 = some (g7FirstAfter, g7Follow) ∧
    alookup g7FirstAfter "c" = some ["c", "b"] ∧
    ¬g7FirstAfter = g7First :=
  ⟨g7FirstEq, by rfl, g7FollowEq, by rfl, by decide⟩

/-- C8: the attribute traversal satisfies the dragon-book equations: at
a plus node nullable is the nullable of the child, at a concatenation
the stated nullable, firstpos and lastpos equations hold, and the
followpos map of the traversal contains first(r) after every position
of last(l) at a concatenation and first(c) after every position of
last(c) at a star or plus node. -/
theorem c8_attribute_equations :
    (∀ c, attrOf (STree.unary "+" c) =
      ⟨(attrOf c).nullable, (attrOf c).first, (attrOf c).last⟩) ∧
    (attrOf (STree.unary "+" (STree.leaf "a" 1))).nullable = false ∧
    (∀ l r, attrOf (STree.binary "." l r) =
      ⟨(attrOf l).nullable && (attrOf r).nullable,
       if !(attrOf l).nullable then (attrOf l).first
         else (attrOf l).first ||| (attrOf r).first,
       if !(attrOf r).nullable then (attrOf r).last
         else (attrOf l).last ||| (attrOf r).last⟩) ∧
    (∀ t, (positionsOf t).Nodup → ∀ s, IsSubtree s t →
      Contrib s (computeNullableFirstLastFollow t)) :=
  ⟨attrOf_plus_node, by decide, attrOf_cat_node,
   fun t hnd s hsub => trav_contrib t hnd [] s hsub⟩

/-- C8 witness: the contribution of the concatenation of two leaves is
present in its followpos map. -/
theorem c8_witness :
    Contrib (STree.binary "." (STree.leaf "a" 1) (STree.leaf "b" 2))
      (computeNullableFirstLastFollow
        (STree.binary "." (STree.leaf "a" 1) (STree.leaf "b" 2))) :=
  c8_attribute_equations.2.2.2 _ (by decide) _ (IsSubtree.refl _)

/-- C9: run_lexer emits exactly one record per non-blank stripped line,
whose lexeme is the whole line; a real kind arises exactly from a full
walk of the line into an accepting state with a resolvable token, and a
line holding several tokens in sequence comes out as a single erro!
record. -/
theorem c9_run_lexer_lines :
    (∀ (dfa : AFD) (tm : List (Nat × String))
       (inputLines : List (List Char)),
      runLexer dfa tm inputLines =
        ((inputLines.map pyStrip).filter (fun l => !l.isEmpty)).map
          (fun line => (String.mk line,
            (simulateDfaOnLine dfa tm line).2))) ∧
    (∀ (dfa : AFD) (tm : List (Nat × String)) (line : List Char)
       (st : Nat) (t : String),
      lineWalk dfa line dfa.start = some st →
      dfa.accepts.contains st = true → resolveToken tm st = some t →
      simulateDfaOnLine dfa tm line = (String.mk line, t)) ∧
    (∀ (dfa : AFD) (tm : List (Nat × String)) (line : List Char),
      ¬(simulateDfaOnLine dfa tm line).2 = "erro!" →
      ∃ st t, lineWalk dfa line dfa.start = some st ∧
        dfa.accepts.contains st = true ∧ resolveToken tm st = some t ∧
        simulateDfaOnLine dfa tm line = (String.mk line, t)) ∧
    runLexer s1DfaLit s1TmLit ["a1+b".data] = [("a1+b", "erro!")] :=
  ⟨runLexer_records, simulateDfaOnLine_kind_of, simulateDfaOnLine_success,
   by rfl⟩

/-- C9 witness: the single line a1 walks to the accepting state 2 and
comes out as one record with the whole line as lexeme and kind id. -/
theorem c9_witness :
    simulateDfaOnLine s1DfaLit s1TmLit "a1".data = ("a1", "id") :=
  c9_run_lexer_lines.2.1 s1DfaLit s1TmLit "a1".data 2 "id" (by rfl)
    (by rfl) (by rfl)

/-- C10: simulate_dfa_on_line remaps every metacharacter to its
backslash-escaped two-character form before the transition lookup,
leaves every other character unchanged, a step consults exactly the
escaped key, and the outcome never depends on transitions keyed by a
bare metacharacter. -/
theorem c10_escape_remap :
    (∀ c, c ∈ metaChars → escapedSymbol c = String.mk ['\\', c]) ∧
    (∀ c, ¬c ∈ metaChars → escapedSymbol c = toStr c) ∧
    (∀ (dfa : AFD) (c : Char) (rest : List Char) (st : Nat),
      lineWalk dfa (c :: rest) st =
        match lookupTrans dfa.transitions st (escapedSymbol c) with
        | none => none
        | some st2 => lineWalk dfa rest st2) ∧
    (∀ (dfaA dfaB : AFD) (tm : List (Nat × String)) (line : List Char),
      dfaA.start = dfaB.start → dfaA.accepts = dfaB.accepts →
      (∀ st sym, ¬sym ∈ bareMeta →
        lookupTrans dfaA.transitions st sym =
          lookupTrans dfaB.transitions st sym) →
      simulateDfaOnLine dfaA tm line = simulateDfaOnLine dfaB tm line) :=
  ⟨escapedSymbol_mem_eq, escapedSymbol_not_mem_eq, lineWalk_cons,
   fun dfaA dfaB tm line hs ha h =>
     simulateDfaOnLine_agree dfaA dfaB tm hs ha h line⟩

/-- C10 witness: the plus character is looked up under its escaped
two-character spelling. -/
theorem c10_witness :
    escapedSymbol '+' = String.mk ['\\', '+'] :=
  c10_escape_remap.1 '+' (by decide)

end T2
